import Mathlib

/-!
Verification of the chuk-acp client core: JSON-RPC message model,
stdio transport lifecycle and the request/response correlation engine.

The message model, correlation engine and stdio transport are embedded
shallowly.  The typed terminal call layer is translated directly from
src/chuk_acp/protocol/messages/terminal.py.  The jsonrpc, send_message
and transport.stdio modules are not shipped in this snapshot of the
repository (only their tests and callers are), so those parts are
modelled from the specification, as noted on each definition.
-/

namespace ChukAcp

/-- JSON document values as decoded from one wire line.  Numbers are
modelled as integers; the envelope logic under verification never
inspects fractional values. -/
inductive Json where
  | null
  | bool (b : Bool)
  | num (n : Int)
  | str (s : String)
  | arr (items : List Json)
  | obj (fields : List (String × Json))
deriving Repr

/-- Look up the first binding of key `k` in a JSON object field list,
mirroring Python dict access on a decoded object. -/
def jsonLookup (fields : List (String × Json)) (k : String) : Option Json :=
  match fields.find? (fun p => p.1 == k) with
  | some p => some p.2
  | none => none

/-- Key-presence test on a decoded JSON object, mirroring Python's
membership test on a dict. -/
def hasKey (fields : List (String × Json)) (k : String) : Bool :=
  (jsonLookup fields k).isSome

/-- Modelled from the spec: RequestId is either an integer or a string,
chosen by the sender (src/chuk_acp/protocol/jsonrpc.py is not shipped in
this snapshot). -/
inductive RequestId where
  | num (n : Int)
  | str (s : String)
deriving Repr, DecidableEq

/-- Encode a RequestId as the JSON value carried in the wire envelope. -/
def RequestId.toJson : RequestId → Json
  | .num n => .num n
  | .str s => .str s

/-- Decode a wire id field back into a RequestId; ids of any other JSON
shape match no outstanding request. -/
def Json.toRequestId : Json → Option RequestId
  | .num n => some (.num n)
  | .str s => some (.str s)
  | _ => none

/-- Modelled from the spec: JsonRpcRequest envelope.  The id and method
slots hold the raw decoded JSON values, since classification is by key
presence; constructors below only ever put ids and string methods in. -/
structure JSONRPCRequest where
  id : Json
  method : Json
  params : Option Json
deriving Repr

/-- Modelled from the spec: JsonRpcNotification — same shape minus id. -/
structure JSONRPCNotification where
  method : Json
  params : Option Json
deriving Repr

/-- Exactly one of result / error, by construction. -/
inductive ResponsePayload where
  | result (v : Json)
  | error (e : Json)
deriving Repr

/-- Modelled from the spec: JsonRpcResponse envelope. -/
structure JSONRPCResponse where
  id : Json
  payload : ResponsePayload
deriving Repr

/-- The classification of a successfully parsed inbound line. -/
inductive JSONRPCMessage where
  | request (r : JSONRPCRequest)
  | notification (n : JSONRPCNotification)
  | response (r : JSONRPCResponse)
deriving Repr

/-- Modelled from the spec: JsonRpcError payload fields. -/
structure JSONRPCError where
  code : Int
  message : String
  data : Option Json
deriving Repr

/-- Render a JsonRpcError as its wire object, omitting absent data. -/
def JSONRPCError.toJson (e : JSONRPCError) : Json :=
  .obj ([("code", .num e.code), ("message", .str e.message)] ++
    (match e.data with
     | some d => [("data", d)]
     | none => []))

/-- Modelled from the spec: create_request builds a request envelope from
a method name, optional params and a caller-supplied id. -/
def create_request (method : String) (params : Option Json) (id : RequestId) :
    JSONRPCRequest :=
  ⟨id.toJson, .str method, params⟩

/-- Modelled from the spec: create_notification builds a fire-and-forget
envelope with no id. -/
def create_notification (method : String) (params : Option Json) :
    JSONRPCNotification :=
  ⟨.str method, params⟩

/-- Modelled from the spec: create_response builds a result response. -/
def create_response (id : RequestId) (result : Json) : JSONRPCResponse :=
  ⟨id.toJson, .result result⟩

/-- Modelled from the spec: create_error_response builds an error
response carrying code, message and optional data. -/
def create_error_response (id : RequestId) (code : Int) (message : String)
    (data : Option Json) : JSONRPCResponse :=
  ⟨id.toJson, .error (JSONRPCError.toJson ⟨code, message, data⟩)⟩

/-- Skip JSON insignificant whitespace. -/
def skipWs : List Char → List Char
  | c :: cs =>
      if c = ' ' ∨ c = '\t' ∨ c = '\n' ∨ c = '\r' then skipWs cs else c :: cs
  | [] => []

/-- Value of one hexadecimal digit character. -/
def hexVal (c : Char) : Option Nat :=
  if c.isDigit then some (c.toNat - 48)
  else if 'a' ≤ c ∧ c ≤ 'f' then some (c.toNat - 87)
  else if 'A' ≤ c ∧ c ≤ 'F' then some (c.toNat - 55)
  else none

/-- The simple JSON escapes accepted after a backslash. -/
def unescapeChar (e : Char) : Option Char :=
  if e = '"' then some '"'
  else if e = '\\' then some '\\'
  else if e = '/' then some '/'
  else if e = 'n' then some '\n'
  else if e = 't' then some '\t'
  else if e = 'r' then some '\r'
  else if e = 'b' then some '\x08'
  else if e = 'f' then some '\x0c'
  else none

/-- Parse the body of a JSON string after its opening quote, handling the
simple escapes and four-digit u-escapes as json.loads does; returns the
decoded string and the rest of the input. -/
def parseStringBody (acc : List Char) : List Char → Option (String × List Char)
  | [] => none
  | c :: cs =>
    if c = '"' then some (String.mk acc.reverse, cs)
    else if c = '\\' then
      match cs with
      | 'u' :: h1 :: h2 :: h3 :: h4 :: rest =>
        match hexVal h1, hexVal h2, hexVal h3, hexVal h4 with
        | some v1, some v2, some v3, some v4 =>
            parseStringBody
              (Char.ofNat (((v1 * 16 + v2) * 16 + v3) * 16 + v4) :: acc) rest
        | _, _, _, _ => none
      | e :: rest =>
        match unescapeChar e with
        | some ch => parseStringBody (ch :: acc) rest
        | none => none
      | [] => none
    else parseStringBody (c :: acc) cs

/-- Consume a run of decimal digits, accumulating their value. -/
def parseDigitsAux (acc : Nat) : List Char → Nat × List Char
  | c :: cs =>
      if c.isDigit then parseDigitsAux (acc * 10 + (c.toNat - 48)) cs
      else (acc, c :: cs)
  | [] => (acc, [])

/-- Parse a JSON integer literal (the model carries no fractions). -/
def parseNumber : List Char → Option (Json × List Char)
  | [] => none
  | c :: cs =>
    if c = '-' then
      match cs with
      | [] => none
      | c2 :: cs2 =>
        if c2.isDigit then
          let p := parseDigitsAux (c2.toNat - 48) cs2
          some (.num (-(p.1 : Int)), p.2)
        else none
    else if c.isDigit then
      let p := parseDigitsAux (c.toNat - 48) cs
      some (.num (p.1 : Int), p.2)
    else none

mutual

/-- Recursive-descent JSON value parser, fuelled for termination. -/
def parseValue (fuel : Nat) (cs : List Char) : Option (Json × List Char) :=
  match fuel with
  | 0 => none
  | fuel + 1 =>
    match skipWs cs with
    | 'n' :: 'u' :: 'l' :: 'l' :: rest => some (.null, rest)
    | 't' :: 'r' :: 'u' :: 'e' :: rest => some (.bool true, rest)
    | 'f' :: 'a' :: 'l' :: 's' :: 'e' :: rest => some (.bool false, rest)
    | '"' :: rest =>
        match parseStringBody [] rest with
        | some p => some (.str p.1, p.2)
        | none => none
    | '[' :: rest =>
        match skipWs rest with
        | ']' :: rest2 => some (.arr [], rest2)
        | rest2 => parseArrayRest fuel [] rest2
    | '\x7b' :: rest =>
        match skipWs rest with
        | '\x7d' :: rest2 => some (.obj [], rest2)
        | rest2 => parseObjRest fuel [] rest2
    | other => parseNumber other

/-- Parse the remaining comma-separated items of a JSON array. -/
def parseArrayRest (fuel : Nat) (acc : List Json) (cs : List Char) :
    Option (Json × List Char) :=
  match fuel with
  | 0 => none
  | fuel + 1 =>
    match parseValue fuel cs with
    | none => none
    | some (v, rest) =>
      match skipWs rest with
      | ',' :: rest2 => parseArrayRest fuel (v :: acc) rest2
      | ']' :: rest2 => some (.arr (v :: acc).reverse, rest2)
      | _ => none

/-- Parse the remaining comma-separated members of a JSON object. -/
def parseObjRest (fuel : Nat) (acc : List (String × Json)) (cs : List Char) :
    Option (Json × List Char) :=
  match fuel with
  | 0 => none
  | fuel + 1 =>
    match skipWs cs with
    | '"' :: rest =>
      match parseStringBody [] rest with
      | none => none
      | some (k, rest2) =>
        match skipWs rest2 with
        | ':' :: rest3 =>
          match parseValue fuel rest3 with
          | none => none
          | some (v, rest4) =>
            match skipWs rest4 with
            | ',' :: rest5 => parseObjRest fuel ((k, v) :: acc) rest5
            | '\x7d' :: rest5 => some (.obj ((k, v) :: acc).reverse, rest5)
            | _ => none
        | _ => none
    | _ => none

end

/-- Modelled from the spec: decode one line of text as a JSON document
(the role json.loads plays in the absent jsonrpc module), yielding none
when the text is not valid JSON. -/
def decodeJson (line : String) : Option Json :=
  match parseValue (line.length + 1) line.data with
  | some (j, rest) => if skipWs rest = [] then some j else none
  | none => none

/-- Result of parsing one inbound line: a typed message or a typed
failure, never an exception. -/
inductive ParseResult where
  | msg (m : JSONRPCMessage)
  | failure (raw : String) (reason : String)
deriving Repr

/-- Modelled from the spec: classify a decoded JSON document — method
present and id absent gives a notification, method and id a request, id
with exactly one of result / error (and no method) a response; everything
else is rejected with a reason. -/
def classify (j : Json) : Except String JSONRPCMessage :=
  match j with
  | .obj fields =>
    match jsonLookup fields "method", jsonLookup fields "id" with
    | some m, none => .ok (.notification ⟨m, jsonLookup fields "params"⟩)
    | some m, some i => .ok (.request ⟨i, m, jsonLookup fields "params"⟩)
    | none, some i =>
      match jsonLookup fields "result", jsonLookup fields "error" with
      | some r, none => .ok (.response ⟨i, .result r⟩)
      | none, some e => .ok (.response ⟨i, .error e⟩)
      | some _, some _ => .error "message carries both result and error"
      | none, none => .error "message carries neither result nor error"
    | none, none => .error "message has neither method nor id"
  | _ => .error "top-level JSON value is not an object"

/-- Modelled from the spec: parse_message decodes one line of text as
JSON and classifies it, returning a typed ParseFailure (never raising)
when the line is not valid JSON or fits no message kind. -/
def parse_message (line : String) : ParseResult :=
  match decodeJson line with
  | none => .failure line "not valid JSON"
  | some j =>
    match classify j with
    | .ok m => .msg m
    | .error reason => .failure line reason

/-- The wire document of a request: jsonrpc tag, id, method, and params
only when present. -/
def requestToWire (r : JSONRPCRequest) : Json :=
  .obj ([("jsonrpc", .str "2.0"), ("id", r.id), ("method", r.method)] ++
    (match r.params with
     | some p => [("params", p)]
     | none => []))

/-- The wire document of a notification: the same shape minus id. -/
def notificationToWire (n : JSONRPCNotification) : Json :=
  .obj ([("jsonrpc", .str "2.0"), ("method", n.method)] ++
    (match n.params with
     | some p => [("params", p)]
     | none => []))

/-- The wire document of a response: exactly one of result / error. -/
def responseToWire (r : JSONRPCResponse) : Json :=
  .obj ([("jsonrpc", .str "2.0"), ("id", r.id)] ++
    (match r.payload with
     | .result v => [("result", v)]
     | .error e => [("error", e)]))

/-- Modelled from the spec: the wire document written for a message. -/
def messageToWire : JSONRPCMessage → Json
  | .request r => requestToWire r
  | .notification n => notificationToWire n
  | .response r => responseToWire r

/-- Decimal digit character. -/
def digitChar (d : Nat) : Char :=
  if d = 0 then '0' else if d = 1 then '1' else if d = 2 then '2'
  else if d = 3 then '3' else if d = 4 then '4' else if d = 5 then '5'
  else if d = 6 then '6' else if d = 7 then '7' else if d = 8 then '8'
  else '9'

/-- Hexadecimal digit character. -/
def hexChar (d : Nat) : Char :=
  if d = 10 then 'a' else if d = 11 then 'b' else if d = 12 then 'c'
  else if d = 13 then 'd' else if d = 14 then 'e' else if d = 15 then 'f'
  else digitChar d

/-- Decimal rendering of a natural number, fuelled. -/
def natDigitsAux (fuel : Nat) (n : Nat) (acc : List Char) : List Char :=
  match fuel with
  | 0 => acc
  | fuel + 1 =>
    if n < 10 then digitChar n :: acc
    else natDigitsAux fuel (n / 10) (digitChar (n % 10) :: acc)

/-- Decimal rendering of a natural number. -/
def natDigits (n : Nat) : List Char := natDigitsAux (n + 1) n []

/-- Decimal rendering of an integer. -/
def intDigits : Int → List Char
  | .ofNat n => natDigits n
  | .negSucc m => '-' :: natDigits (m + 1)

/-- JSON string escaping of one character, as json.dumps performs it:
quote, backslash and control characters are escaped, so the rendered
text can never contain a raw newline. -/
def escapeChar (c : Char) : List Char :=
  if c = '"' then ['\\', '"']
  else if c = '\\' then ['\\', '\\']
  else if c = '\n' then ['\\', 'n']
  else if c = '\t' then ['\\', 't']
  else if c = '\r' then ['\\', 'r']
  else if c = '\x08' then ['\\', 'b']
  else if c = '\x0c' then ['\\', 'f']
  else if c.toNat < 32 then
    ['\\', 'u', '0', '0', hexChar (c.toNat / 16), hexChar (c.toNat % 16)]
  else [c]

/-- Render a JSON string literal with escapes and enclosing quotes. -/
def renderString (s : String) : List Char :=
  '"' :: s.data.foldr (fun c acc => escapeChar c ++ acc) ['"']

mutual

/-- Render a JSON document to text, fuelled for termination. -/
def renderJsonF (fuel : Nat) (j : Json) : List Char :=
  match fuel with
  | 0 => []
  | fuel + 1 =>
    match j with
    | .null => "null".data
    | .bool true => "true".data
    | .bool false => "false".data
    | .num n => intDigits n
    | .str s => renderString s
    | .arr items => '[' :: renderItemsF fuel items ++ [']']
    | .obj fields => '\x7b' :: renderFieldsF fuel fields ++ ['\x7d']

/-- Render comma-separated array items. -/
def renderItemsF (fuel : Nat) : List Json → List Char
  | [] => []
  | [x] => renderJsonF fuel x
  | x :: xs => renderJsonF fuel x ++ ',' :: renderItemsF fuel xs

/-- Render comma-separated object members. -/
def renderFieldsF (fuel : Nat) : List (String × Json) → List Char
  | [] => []
  | [(k, v)] => renderString k ++ ':' :: renderJsonF fuel v
  | (k, v) :: xs =>
      renderString k ++ ':' :: renderJsonF fuel v ++ ',' :: renderFieldsF fuel xs

end

/-- Nesting depth of a JSON document, used to supply sufficient render
fuel. -/
def jsonDepth : Json → Nat
  | .null => 0
  | .bool _ => 0
  | .num _ => 0
  | .str _ => 0
  | .arr items => 1 + (items.attach.map (fun x => jsonDepth x.1)).foldr max 0
  | .obj fields => 1 + (fields.attach.map (fun x => jsonDepth x.1.2)).foldr max 0
decreasing_by
  · have h := List.sizeOf_lt_of_mem x.2
    simp only [Json.arr.sizeOf_spec]
    omega
  · have h := List.sizeOf_lt_of_mem x.2
    have h2 : sizeOf x.1.2 < sizeOf x.1 := by
      obtain ⟨a, b⟩ := x.1
      simp
    simp only [Json.obj.sizeOf_spec]
    omega

/-- Structural size of a JSON document: one per node plus one per list
slot, an upper bound on the parser fuel its text needs. -/
def jsonSize : Json → Nat
  | .null => 1
  | .bool _ => 1
  | .num _ => 1
  | .str _ => 1
  | .arr items => 1 + (items.attach.map (fun x => jsonSize x.1 + 1)).sum
  | .obj fields => 1 + (fields.attach.map (fun x => jsonSize x.1.2 + 1)).sum
decreasing_by
  · have h := List.sizeOf_lt_of_mem x.2
    simp only [Json.arr.sizeOf_spec]
    omega
  · have h := List.sizeOf_lt_of_mem x.2
    have h2 : sizeOf x.1.2 < sizeOf x.1 := by
      obtain ⟨a, b⟩ := x.1
      simp
    simp only [Json.obj.sizeOf_spec]
    omega

/-- Whether the input does not continue with a digit, so that a rendered
number placed in front of it parses back without absorbing it. -/
def noDigitHead : List Char → Prop
  | [] => True
  | c :: _ => c.isDigit = false

/-- Modelled from the spec: serialization is a pure function of the
message value to one line of JSON text (newline-delimited framing adds
the terminator separately). -/
def serialize (m : JSONRPCMessage) : String :=
  String.mk
    (renderJsonF (jsonDepth (messageToWire m) + 1) (messageToWire m))

/-- Modelled from the spec: the correlation engine's per-request entry —
id, requesting method and deadline; the single-assignment result slot is
modelled by the Outcome events the engine emits. -/
structure PendingRequest where
  id : RequestId
  method : String
  deadline : Nat
deriving Repr, DecidableEq

/-- Terminal events delivered to callers of send_request, plus the
synchronous rejection of an id reuse. -/
inductive Outcome where
  | fulfilled (id : RequestId) (payload : ResponsePayload)
  | timedOut (method : String) (id : RequestId)
  | channelClosed (id : RequestId)
  | rejectedDuplicate (id : RequestId)
deriving Repr

/-- First live entry with the given id, mirroring dict lookup. -/
def findPending (t : List PendingRequest) (i : RequestId) :
    Option PendingRequest :=
  t.find? (fun e => e.id == i)

/-- Remove the entry with the given id, mirroring dict deletion. -/
def removePending (t : List PendingRequest) (i : RequestId) :
    List PendingRequest :=
  t.filter (fun e => !(e.id == i))

/-- Modelled from the spec: dispatch routes one parsed inbound message —
a response matching a live entry resolves and removes it; responses with
unknown or undecodable ids are logged and dropped; notifications and
server-initiated requests go to the inbound handler and leave the
pending table untouched. -/
def dispatch (t : List PendingRequest) (m : JSONRPCMessage) :
    List PendingRequest × List Outcome :=
  match m with
  | .response r =>
    match r.id.toRequestId with
    | some i =>
      match findPending t i with
      | some e => (removePending t i, [.fulfilled e.id r.payload])
      | none => (t, [])
    | none => (t, [])
  | .request _ => (t, [])
  | .notification _ => (t, [])

/-- Modelled from the spec: process a sequence of inbound responses in
arrival order, collecting the outcomes delivered to waiting callers. -/
def processResponses (t : List PendingRequest) (rs : List JSONRPCResponse) :
    List PendingRequest × List Outcome :=
  match rs with
  | [] => (t, [])
  | r :: rest =>
    let p := dispatch t (.response r)
    let q := processResponses p.1 rest
    (q.1, p.2 ++ q.2)

/-- Modelled from the spec: the stdout pump parses each line; parse
failures are logged and discarded without touching the channel, parsed
messages are handed to dispatch. -/
def pumpLine (t : List PendingRequest) (line : String) :
    List PendingRequest × List Outcome :=
  match parse_message line with
  | .failure _ _ => (t, [])
  | .msg m => dispatch t m

/-- Pump a whole inbound stream of lines in order. -/
def pumpLines (t : List PendingRequest) (lines : List String) :
    List PendingRequest × List Outcome :=
  match lines with
  | [] => (t, [])
  | line :: rest =>
    let p := pumpLine t line
    let q := pumpLines p.1 rest
    (q.1, p.2 ++ q.2)

/-- The engine-level events that mutate the pending table. -/
inductive EngineEvent where
  | send (e : PendingRequest)
  | inbound (m : JSONRPCMessage)
  | timeoutFire (i : RequestId)
  | close

/-- Modelled from the spec: one engine transition — send inserts a fresh
entry (reuse of a live id is a caller error, rejected synchronously),
inbound messages go through dispatch, a deadline expiry removes its
entry and raises TimeoutError naming the method and id, and channel
close abandons every entry with ChannelClosedError. -/
def engineStep (t : List PendingRequest) (ev : EngineEvent) :
    List PendingRequest × List Outcome :=
  match ev with
  | .send e =>
    match findPending t e.id with
    | some _ => (t, [.rejectedDuplicate e.id])
    | none => (t ++ [e], [])
  | .inbound m => dispatch t m
  | .timeoutFire i =>
    match findPending t i with
    | some e => (removePending t i, [.timedOut e.method e.id])
    | none => (t, [])
  | .close => ([], t.map (fun e => .channelClosed e.id))

/-- Run the engine from an empty pending table over a list of events. -/
def runEngine (evs : List EngineEvent) : List PendingRequest :=
  evs.foldl (fun t ev => (engineStep t ev).1) []

/-- The events on which a given pending entry is removed: a response
matching its id, its own deadline, or channel close. -/
def terminalFor (e : PendingRequest) : EngineEvent → Prop
  | .inbound (.response r) => r.id.toRequestId = some e.id
  | .timeoutFire i => i = e.id
  | .close => True
  | _ => False

/-- Modelled from the spec: channel lifecycle states. -/
inductive ChannelState where
  | unstarted
  | running
  | closing
  | closed
deriving Repr, DecidableEq

/-- Modelled from the spec: the channel's observable resource state —
lifecycle state, whether the three pump activities run, and whether the
pipe handles are held. -/
structure ProcessChannel where
  state : ChannelState
  pumpsActive : Bool
  pipesHeld : Bool
deriving Repr, DecidableEq

/-- Modelled from the spec: stop always transitions the channel to
closed, cancels the three pump activities and releases the pipe handles,
on both the graceful and the forced path; it is a total function and
never raises. -/
def ProcessChannel.stop (_c : ProcessChannel) : ProcessChannel :=
  ⟨.closed, false, false⟩

/-- A channel that has completed stop: closed, pumps cancelled, pipes
released. -/
def ProcessChannel.isClosed (c : ProcessChannel) : Prop :=
  c.state = .closed ∧ c.pumpsActive = false ∧ c.pipesHeld = false

/-- Transport construction parameters, shaped as the tests show:
command required, args defaulting to empty, env and cwd optional. -/
structure StdioParameters where
  command : String
  args : List String
  env : Option (List (String × String))
  cwd : Option String
deriving Repr, DecidableEq

/-- A value passed where parameters are expected: either an actual
StdioParameters or some other object, such as a plain string. -/
inductive ParamsArg where
  | params (p : StdioParameters)
  | other (desc : String)
deriving Repr, DecidableEq

/-- The transport object: the stored parameters value and the child
process handle, absent until a successful start. -/
structure StdioTransport where
  parameters : ParamsArg
  process : Option Nat
deriving Repr, DecidableEq

/-- Modelled from the spec and from test_stdio_transport
(test_initialization, test_type_error_on_invalid_parameters): the
constructor stores whatever it is given and spawns nothing; parameter
validation happens when the transport is started. -/
def StdioTransport.init (p : ParamsArg) : StdioTransport :=
  ⟨p, none⟩

/-- Errors surfaced when starting the transport. -/
inductive StartError where
  | typeError (msg : String)
  | processStartError (msg : String)
deriving Repr, DecidableEq

/-- Modelled from test_stdio_transport.test_type_error_on_invalid_parameters:
entering the transport context validates the parameters first and fails
with a TypeError-class error before any child process is spawned; valid
parameters spawn the child. -/
def StdioTransport.start (t : StdioTransport) : Except StartError StdioTransport :=
  match t.parameters with
  | .other _ => .error (.typeError "Expected StdioParameters")
  | .params _ => .ok ⟨t.parameters, some 1⟩

/-- One typed-layer call maps to exactly one correlation-engine
primitive: a request with a method, params and a timeout in seconds, or
a fire-and-forget notification. -/
inductive CallAction where
  | request (method : String) (params : List (String × Json)) (timeout : Nat)
  | notify (method : String) (params : List (String × Json))
deriving Repr

/-- The method of a typed call's single engine invocation. -/
def CallAction.methodOf : CallAction → String
  | .request m _ _ => m
  | .notify m _ => m

/-- The params of a typed call's single engine invocation. -/
def CallAction.paramsOf : CallAction → List (String × Json)
  | .request _ p _ => p
  | .notify _ p => p

/-- The timeout of a typed call, none for notifications. -/
def CallAction.timeoutOf : CallAction → Option Nat
  | .request _ _ t => some t
  | .notify _ _ => none

/-- Whether the call is a send_request invocation. -/
def CallAction.isRequest : CallAction → Bool
  | .request _ _ _ => true
  | .notify _ _ => false

/-- Python truthiness of an optional list argument. -/
def truthyList (o : Option (List String)) : Bool :=
  match o with
  | some l => !l.isEmpty
  | none => false

/-- Python truthiness of an optional string argument. -/
def truthyStr (o : Option String) : Bool :=
  match o with
  | some s => !s.isEmpty
  | none => false

/-- Python truthiness of an optional mapping argument. -/
def truthyDict (o : Option (List (String × String))) : Bool :=
  match o with
  | some l => !l.isEmpty
  | none => false

/-- Translated from src/chuk_acp/protocol/messages/terminal.py
(send_terminal_create): params start with the command and add args, cwd
and env only when the argument is supplied and truthy, then one
send_message call is made with the default timeout of 60 seconds. -/
def send_terminal_create (command : String) (args : Option (List String))
    (cwd : Option String) (env : Option (List (String × String)))
    (timeout : Nat := 60) : CallAction :=
  let ps := [("command", Json.str command)]
  let ps := ps ++
    (if truthyList args then
       [("args", Json.arr ((args.getD []).map Json.str))]
     else [])
  let ps := ps ++
    (if truthyStr cwd then [("cwd", Json.str (cwd.getD ""))] else [])
  let ps := ps ++
    (if truthyDict env then
       [("env", Json.obj ((env.getD []).map (fun p => (p.1, Json.str p.2))))]
     else [])
  .request "terminal/create" ps timeout

/-- Translated from terminal.py (send_terminal_output): one notification
carrying id, output and stream. -/
def send_terminal_output (terminal_id : String) (output : String)
    (stream : String := "stdout") : CallAction :=
  .notify "terminal/output"
    [("id", Json.str terminal_id), ("output", Json.str output),
     ("stream", Json.str stream)]

/-- Translated from terminal.py (send_terminal_release): one request
with the default timeout of 60 seconds. -/
def send_terminal_release (terminal_id : String) (timeout : Nat := 60) :
    CallAction :=
  .request "terminal/release" [("id", Json.str terminal_id)] timeout

/-- Translated from terminal.py (send_terminal_wait_for_exit): one
request with the longer default timeout of 300 seconds. -/
def send_terminal_wait_for_exit (terminal_id : String)
    (timeout : Nat := 300) : CallAction :=
  .request "terminal/wait_for_exit" [("id", Json.str terminal_id)] timeout

/-- Translated from terminal.py (send_terminal_kill): one request with
the default timeout of 60 seconds. -/
def send_terminal_kill (terminal_id : String) (timeout : Nat := 60) :
    CallAction :=
  .request "terminal/kill" [("id", Json.str terminal_id)] timeout

theorem digitChar_ne_newline (d : Nat) : digitChar d ≠ '\n' := by
  unfold digitChar
  split_ifs <;> decide

theorem hexChar_ne_newline (d : Nat) : hexChar d ≠ '\n' := by
  unfold hexChar
  split_ifs <;> first | decide | exact digitChar_ne_newline d

theorem natDigitsAux_no_newline (fuel : Nat) :
    ∀ n acc, '\n' ∉ acc → '\n' ∉ natDigitsAux fuel n acc := by
  induction fuel with
  | zero =>
    intro n acc h
    simpa [natDigitsAux] using h
  | succ fuel ih =>
    intro n acc h
    simp only [natDigitsAux]
    split
    · simp only [List.mem_cons]
      rintro (heq | hmem)
      · exact digitChar_ne_newline n heq.symm
      · exact h hmem
    · apply ih
      simp only [List.mem_cons]
      rintro (heq | hmem)
      · exact digitChar_ne_newline (n % 10) heq.symm
      · exact h hmem

theorem natDigits_no_newline (n : Nat) : '\n' ∉ natDigits n :=
  natDigitsAux_no_newline (n + 1) n [] (by simp)

theorem intDigits_no_newline (n : Int) : '\n' ∉ intDigits n := by
  cases n with
  | ofNat m => exact natDigits_no_newline m
  | negSucc m =>
    simp only [intDigits, List.mem_cons]
    rintro (heq | hmem)
    · exact absurd heq (by decide)
    · exact natDigits_no_newline (m + 1) hmem

theorem escapeChar_no_newline (c : Char) : '\n' ∉ escapeChar c := by
  unfold escapeChar
  split_ifs with h1 h2 h3 h4 h5 h6 h7 h8
  · decide
  · decide
  · decide
  · decide
  · decide
  · decide
  · decide
  · simp only [List.mem_cons]
    rintro (h | h | h | h | h | h | h)
    · exact absurd h (by decide)
    · exact absurd h (by decide)
    · exact absurd h (by decide)
    · exact absurd h (by decide)
    · exact hexChar_ne_newline _ h.symm
    · exact hexChar_ne_newline _ h.symm
    · simp at h
  · simp only [List.mem_cons]
    rintro (h | h)
    · exact h3 h.symm
    · simp at h

theorem foldr_escape_no_newline (l : List Char) (init : List Char)
    (h : '\n' ∉ init) :
    '\n' ∉ l.foldr (fun c acc => escapeChar c ++ acc) init := by
  induction l with
  | nil => exact h
  | cons x xs ih =>
    simp only [List.foldr_cons, List.mem_append]
    rintro (hmem | hmem)
    · exact escapeChar_no_newline x hmem
    · exact ih hmem

theorem renderString_no_newline (s : String) : '\n' ∉ renderString s := by
  unfold renderString
  simp only [List.mem_cons]
  rintro (h | h)
  · exact absurd h (by decide)
  · exact foldr_escape_no_newline s.data ['"'] (by decide) h

theorem renderF_no_newline (fuel : Nat) :
    (∀ j, '\n' ∉ renderJsonF fuel j) ∧
    (∀ xs, '\n' ∉ renderItemsF fuel xs) ∧
    (∀ fs, '\n' ∉ renderFieldsF fuel fs) := by
  induction fuel with
  | zero =>
    have hj : ∀ j, '\n' ∉ renderJsonF 0 j := by
      intro j h
      simp [renderJsonF] at h
    have hi : ∀ xs, '\n' ∉ renderItemsF 0 xs := by
      intro xs
      induction xs with
      | nil => intro h; simp [renderItemsF] at h
      | cons x xs ih =>
        cases xs with
        | nil => exact hj x
        | cons y ys =>
          show '\n' ∉ renderJsonF 0 x ++ ',' :: renderItemsF 0 (y :: ys)
          exact List.not_mem_append (hj x)
            (List.not_mem_cons_of_ne_of_not_mem (by decide) ih)
    have hf : ∀ fs, '\n' ∉ renderFieldsF 0 fs := by
      intro fs
      induction fs with
      | nil => intro h; simp [renderFieldsF] at h
      | cons x xs ih =>
        obtain ⟨k, v⟩ := x
        cases xs with
        | nil =>
          show '\n' ∉ renderString k ++ ':' :: renderJsonF 0 v
          exact List.not_mem_append (renderString_no_newline k)
            (List.not_mem_cons_of_ne_of_not_mem (by decide) (hj v))
        | cons y ys =>
          obtain ⟨k2, v2⟩ := y
          have hshape : renderFieldsF 0 ((k, v) :: (k2, v2) :: ys) =
              renderString k ++ ':' :: (renderJsonF 0 v ++
                ',' :: renderFieldsF 0 ((k2, v2) :: ys)) := by
            simp [renderFieldsF]
          rw [hshape]
          exact List.not_mem_append (renderString_no_newline k)
            (List.not_mem_cons_of_ne_of_not_mem (by decide)
              (List.not_mem_append (hj v)
                (List.not_mem_cons_of_ne_of_not_mem (by decide) ih)))
    exact ⟨hj, hi, hf⟩
  | succ fuel ih =>
    obtain ⟨ihj, ihi, ihf⟩ := ih
    have hj : ∀ j, '\n' ∉ renderJsonF (fuel + 1) j := by
      intro j
      cases j with
      | null =>
        intro h
        simp only [renderJsonF] at h
        exact absurd h (by decide)
      | bool b =>
        cases b <;> intro h <;> simp only [renderJsonF] at h <;>
          exact absurd h (by decide)
      | num n => exact intDigits_no_newline n
      | str s => exact renderString_no_newline s
      | arr items =>
        show '\n' ∉ '[' :: (renderItemsF fuel items ++ [']'])
        exact List.not_mem_cons_of_ne_of_not_mem (by decide)
          (List.not_mem_append (ihi items) (by decide))
      | obj fields =>
        show '\n' ∉ '\x7b' :: (renderFieldsF fuel fields ++ ['\x7d'])
        exact List.not_mem_cons_of_ne_of_not_mem (by decide)
          (List.not_mem_append (ihf fields) (by decide))
    have hi : ∀ xs, '\n' ∉ renderItemsF (fuel + 1) xs := by
      intro xs
      induction xs with
      | nil => intro h; simp [renderItemsF] at h
      | cons x xs ih2 =>
        cases xs with
        | nil => exact hj x
        | cons y ys =>
          show '\n' ∉
            renderJsonF (fuel + 1) x ++ ',' :: renderItemsF (fuel + 1) (y :: ys)
          exact List.not_mem_append (hj x)
            (List.not_mem_cons_of_ne_of_not_mem (by decide) ih2)
    have hf : ∀ fs, '\n' ∉ renderFieldsF (fuel + 1) fs := by
      intro fs
      induction fs with
      | nil => intro h; simp [renderFieldsF] at h
      | cons x xs ih2 =>
        obtain ⟨k, v⟩ := x
        cases xs with
        | nil =>
          show '\n' ∉ renderString k ++ ':' :: renderJsonF (fuel + 1) v
          exact List.not_mem_append (renderString_no_newline k)
            (List.not_mem_cons_of_ne_of_not_mem (by decide) (hj v))
        | cons y ys =>
          obtain ⟨k2, v2⟩ := y
          have hshape : renderFieldsF (fuel + 1) ((k, v) :: (k2, v2) :: ys) =
              renderString k ++ ':' :: (renderJsonF (fuel + 1) v ++
                ',' :: renderFieldsF (fuel + 1) ((k2, v2) :: ys)) := by
            simp [renderFieldsF]
          rw [hshape]
          exact List.not_mem_append (renderString_no_newline k)
            (List.not_mem_cons_of_ne_of_not_mem (by decide)
              (List.not_mem_append (hj v)
                (List.not_mem_cons_of_ne_of_not_mem (by decide) ih2)))
    exact ⟨hj, hi, hf⟩

theorem serialize_no_newline (m : JSONRPCMessage) :
    '\n' ∉ (serialize m).data :=
  (renderF_no_newline (jsonDepth (messageToWire m) + 1)).1 (messageToWire m)

theorem digitChar_isDigit (d : Nat) : (digitChar d).isDigit = true := by
  unfold digitChar
  split_ifs <;> decide

theorem digitChar_toNat (d : Nat) (h : d < 10) : (digitChar d).toNat = 48 + d := by
  unfold digitChar
  split_ifs with h0 h1 h2 h3 h4 h5 h6 h7 h8
  · subst h0; decide
  · subst h1; decide
  · subst h2; decide
  · subst h3; decide
  · subst h4; decide
  · subst h5; decide
  · subst h6; decide
  · subst h7; decide
  · subst h8; decide
  · have h9 : d = 9 := by omega
    subst h9; decide

theorem hexVal_digitChar (d : Nat) (h : d < 10) :
    hexVal (digitChar d) = some d := by
  have h1 := digitChar_isDigit d
  have h2 := digitChar_toNat d h
  simp [hexVal, h1, h2]

theorem hexVal_hexChar (d : Nat) (h : d < 16) : hexVal (hexChar d) = some d := by
  unfold hexChar
  split_ifs with h10 h11 h12 h13 h14 h15
  · subst h10; decide
  · subst h11; decide
  · subst h12; decide
  · subst h13; decide
  · subst h14; decide
  · subst h15; decide
  · exact hexVal_digitChar d (by omega)

theorem natDigitsAux_eq_append (f : Nat) :
    ∀ n acc, natDigitsAux f n acc = natDigitsAux f n [] ++ acc := by
  induction f with
  | zero => intro n acc; simp [natDigitsAux]
  | succ f ih =>
    intro n acc
    simp only [natDigitsAux]
    split
    · simp
    · rw [ih (n / 10) (digitChar (n % 10) :: acc),
        ih (n / 10) [digitChar (n % 10)]]
      simp

theorem natDigitsAux_ne_nil (f : Nat) :
    ∀ n acc, acc ≠ [] → natDigitsAux f n acc ≠ [] := by
  induction f with
  | zero => intro n acc h; simpa [natDigitsAux] using h
  | succ f ih =>
    intro n acc h
    simp only [natDigitsAux]
    split
    · simp
    · exact ih (n / 10) _ (by simp)

theorem natDigits_ne_nil (n : Nat) : natDigits n ≠ [] := by
  unfold natDigits
  simp only [natDigitsAux]
  split
  · simp
  · exact natDigitsAux_ne_nil n (n / 10) _ (by simp)

theorem natDigitsAux_all_digits (f : Nat) :
    ∀ n acc, (∀ c ∈ acc, c.isDigit = true) →
      ∀ c ∈ natDigitsAux f n acc, c.isDigit = true := by
  induction f with
  | zero => intro n acc h; simpa [natDigitsAux] using h
  | succ f ih =>
    intro n acc h
    simp only [natDigitsAux]
    split
    · intro c hc
      rcases List.mem_cons.mp hc with rfl | hc
      · exact digitChar_isDigit n
      · exact h c hc
    · refine ih (n / 10) _ ?_
      intro c hc
      rcases List.mem_cons.mp hc with rfl | hc
      · exact digitChar_isDigit _
      · exact h c hc

theorem natDigits_all_digits (n : Nat) :
    ∀ c ∈ natDigits n, c.isDigit = true :=
  natDigitsAux_all_digits (n + 1) n [] (by simp)

theorem natDigitsAux_foldl (f : Nat) :
    ∀ n, n < 10 ^ f →
      List.foldl (fun a c => a * 10 + (c.toNat - 48)) 0
        (natDigitsAux f n []) = n := by
  induction f with
  | zero =>
    intro n h
    simp [natDigitsAux]
    omega
  | succ f ih =>
    intro n h
    simp only [natDigitsAux]
    split
    · rename_i hlt
      simp [digitChar_toNat n hlt]
    · rename_i hge
      rw [natDigitsAux_eq_append, List.foldl_append]
      have hdiv : n / 10 < 10 ^ f := by
        rw [Nat.div_lt_iff_lt_mul (by norm_num)]
        calc n < 10 ^ (f + 1) := h
        _ = 10 ^ f * 10 := by rw [Nat.pow_succ]
      rw [ih (n / 10) hdiv]
      have hmod : n % 10 < 10 := Nat.mod_lt _ (by norm_num)
      simp [digitChar_toNat (n % 10) hmod]
      omega

theorem natDigits_foldl (n : Nat) :
    List.foldl (fun a c => a * 10 + (c.toNat - 48)) 0 (natDigits n) = n := by
  unfold natDigits
  refine natDigitsAux_foldl (n + 1) n ?_
  calc n < 10 ^ n := Nat.lt_pow_self (by norm_num) n
  _ ≤ 10 ^ (n + 1) := Nat.pow_le_pow_right (by norm_num) (Nat.le_succ n)

theorem parseDigitsAux_spec (ds : List Char) :
    ∀ acc cs, (∀ c ∈ ds, c.isDigit = true) → noDigitHead cs →
      parseDigitsAux acc (ds ++ cs) =
        (List.foldl (fun a c => a * 10 + (c.toNat - 48)) acc ds, cs) := by
  induction ds with
  | nil =>
    intro acc cs _ hcs
    cases cs with
    | nil => simp [parseDigitsAux]
    | cons c cs2 =>
      have hc : c.isDigit = false := hcs
      simp [parseDigitsAux, hc]
  | cons d ds ih =>
    intro acc cs hds hcs
    have hd : d.isDigit = true := hds d (List.mem_cons_self _ _)
    simp only [List.cons_append, parseDigitsAux, hd, if_true, List.foldl_cons]
    exact ih _ cs (fun c hc => hds c (List.mem_cons_of_mem _ hc)) hcs

theorem parseNumber_natDigits (n : Nat) (cs : List Char) (hcs : noDigitHead cs) :
    parseNumber (natDigits n ++ cs) = some (.num (n : Int), cs) := by
  obtain ⟨d, ds, hnd⟩ : ∃ d ds, natDigits n = d :: ds := by
    cases h : natDigits n with
    | nil => exact absurd h (natDigits_ne_nil n)
    | cons d ds => exact ⟨d, ds, rfl⟩
  have hdig := natDigits_all_digits n
  rw [hnd] at hdig
  have hd : d.isDigit = true := hdig d (List.mem_cons_self _ _)
  have hds : ∀ c ∈ ds, c.isDigit = true :=
    fun c hc => hdig c (List.mem_cons_of_mem _ hc)
  have hdm : d ≠ '-' := by
    intro hcon
    rw [hcon] at hd
    exact absurd hd (by decide)
  rw [hnd, List.cons_append]
  simp only [parseNumber, if_neg hdm, hd, if_true]
  rw [parseDigitsAux_spec ds (d.toNat - 48) cs hds hcs]
  have hval := natDigits_foldl n
  rw [hnd, List.foldl_cons] at hval
  simp only []
  rw [show (0 : Nat) * 10 + (d.toNat - 48) = d.toNat - 48 by omega] at hval
  rw [hval]

theorem parseNumber_intDigits (n : Int) (cs : List Char) (hcs : noDigitHead cs) :
    parseNumber (intDigits n ++ cs) = some (.num n, cs) := by
  cases n with
  | ofNat m => exact parseNumber_natDigits m cs hcs
  | negSucc m =>
    obtain ⟨d, ds, hnd⟩ : ∃ d ds, natDigits (m + 1) = d :: ds := by
      cases h : natDigits (m + 1) with
      | nil => exact absurd h (natDigits_ne_nil (m + 1))
      | cons d ds => exact ⟨d, ds, rfl⟩
    have hdig := natDigits_all_digits (m + 1)
    rw [hnd] at hdig
    have hd : d.isDigit = true := hdig d (List.mem_cons_self _ _)
    have hds : ∀ c ∈ ds, c.isDigit = true :=
      fun c hc => hdig c (List.mem_cons_of_mem _ hc)
    show parseNumber (('-' :: natDigits (m + 1)) ++ cs) = _
    rw [List.cons_append, hnd, List.cons_append]
    simp only [parseNumber, if_pos rfl, hd, if_true]
    rw [parseDigitsAux_spec ds (d.toNat - 48) cs hds hcs]
    have hval := natDigits_foldl (m + 1)
    rw [hnd, List.foldl_cons] at hval
    rw [show (0 : Nat) * 10 + (d.toNat - 48) = d.toNat - 48 by omega] at hval
    simp only []
    rw [hval]
    rfl

theorem foldr_escape_append (l : List Char) (i rest : List Char) :
    (l.foldr (fun c a => escapeChar c ++ a) i) ++ rest =
      l.foldr (fun c a => escapeChar c ++ a) (i ++ rest) := by
  induction l with
  | nil => rfl
  | cons c l ih => simp only [List.foldr_cons, List.append_assoc, ih]

theorem parseStringBody_uescape (acc F : List Char) (h1 h2 h3 h4 : Char)
    (v1 v2 v3 v4 : Nat) (e1 : hexVal h1 = some v1) (e2 : hexVal h2 = some v2)
    (e3 : hexVal h3 = some v3) (e4 : hexVal h4 = some v4) :
    parseStringBody acc ('\\' :: 'u' :: h1 :: h2 :: h3 :: h4 :: F) =
      parseStringBody
        (Char.ofNat (((v1 * 16 + v2) * 16 + v3) * 16 + v4) :: acc) F := by
  simp [parseStringBody, e1, e2, e3, e4]

theorem parseStringBody_foldr (l : List Char) :
    ∀ acc rest, parseStringBody acc
        (l.foldr (fun c a => escapeChar c ++ a) ('"' :: rest)) =
      some (String.mk (acc.reverse ++ l), rest) := by
  induction l with
  | nil =>
    intro acc rest
    simp only [List.foldr_nil, List.append_nil]
    unfold parseStringBody
    simp
  | cons c l ih =>
    intro acc rest
    simp only [List.foldr_cons]
    by_cases h1 : c = '"'
    · subst h1
      rw [show escapeChar '"' = ['\\', '"'] from rfl]
      show parseStringBody ('"' :: acc)
          (l.foldr (fun c a => escapeChar c ++ a) ('"' :: rest)) = _
      rw [ih ('"' :: acc) rest]
      simp
    · by_cases h2 : c = '\\'
      · subst h2
        rw [show escapeChar '\\' = ['\\', '\\'] from rfl]
        show parseStringBody ('\\' :: acc)
            (l.foldr (fun c a => escapeChar c ++ a) ('"' :: rest)) = _
        rw [ih ('\\' :: acc) rest]
        simp
      · by_cases h3 : c = '\n'
        · subst h3
          rw [show escapeChar '\n' = ['\\', 'n'] from rfl]
          show parseStringBody ('\n' :: acc)
              (l.foldr (fun c a => escapeChar c ++ a) ('"' :: rest)) = _
          rw [ih ('\n' :: acc) rest]
          simp
        · by_cases h4 : c = '\t'
          · subst h4
            rw [show escapeChar '\t' = ['\\', 't'] from rfl]
            show parseStringBody ('\t' :: acc)
                (l.foldr (fun c a => escapeChar c ++ a) ('"' :: rest)) = _
            rw [ih ('\t' :: acc) rest]
            simp
          · by_cases h5 : c = '\r'
            · subst h5
              rw [show escapeChar '\r' = ['\\', 'r'] from rfl]
              show parseStringBody ('\r' :: acc)
                  (l.foldr (fun c a => escapeChar c ++ a) ('"' :: rest)) = _
              rw [ih ('\r' :: acc) rest]
              simp
            · by_cases h6 : c = '\x08'
              · subst h6
                rw [show escapeChar '\x08' = ['\\', 'b'] from rfl]
                show parseStringBody ('\x08' :: acc)
                    (l.foldr (fun c a => escapeChar c ++ a) ('"' :: rest)) = _
                rw [ih ('\x08' :: acc) rest]
                simp
              · by_cases h7 : c = '\x0c'
                · subst h7
                  rw [show escapeChar '\x0c' = ['\\', 'f'] from rfl]
                  show parseStringBody ('\x0c' :: acc)
                      (l.foldr (fun c a => escapeChar c ++ a) ('"' :: rest)) = _
                  rw [ih ('\x0c' :: acc) rest]
                  simp
                · by_cases h8 : c.toNat < 32
                  · rw [show escapeChar c =
                        ['\\', 'u', '0', '0', hexChar (c.toNat / 16),
                          hexChar (c.toNat % 16)] from by
                      unfold escapeChar
                      rw [if_neg h1, if_neg h2, if_neg h3, if_neg h4,
                        if_neg h5, if_neg h6, if_neg h7, if_pos h8]]
                    simp only [List.cons_append, List.nil_append]
                    rw [parseStringBody_uescape acc _ '0' '0'
                      (hexChar (c.toNat / 16)) (hexChar (c.toNat % 16))
                      0 0 (c.toNat / 16) (c.toNat % 16)
                      (by decide) (by decide)
                      (hexVal_hexChar (c.toNat / 16) (by omega))
                      (hexVal_hexChar (c.toNat % 16) (by omega))]
                    rw [show ((((0 : Nat) * 16 + 0) * 16 + c.toNat / 16) * 16 +
                        c.toNat % 16) = c.toNat from by omega]
                    rw [Char.ofNat_toNat]
                    rw [ih (c :: acc) rest]
                    simp
                  · rw [show escapeChar c = [c] from by
                      unfold escapeChar
                      rw [if_neg h1, if_neg h2, if_neg h3, if_neg h4,
                        if_neg h5, if_neg h6, if_neg h7, if_neg h8]]
                    rw [List.singleton_append]
                    unfold parseStringBody
                    rw [if_neg h1, if_neg h2]
                    rw [ih (c :: acc) rest]
                    simp

theorem parseStringBody_renderString (s : String) (rest : List Char) :
    parseStringBody []
      (s.data.foldr (fun c a => escapeChar c ++ a) ('"' :: rest)) =
      some (s, rest) := by
  rw [parseStringBody_foldr]
  simp

theorem skipWs_cons (c : Char) (t : List Char)
    (h : ¬(c = ' ' ∨ c = '\t' ∨ c = '\n' ∨ c = '\r')) :
    skipWs (c :: t) = c :: t := by
  simp only [skipWs]
  rw [if_neg h]

theorem parseValue_succ_null (f : Nat) (cs rest : List Char)
    (h : skipWs cs = 'n' :: 'u' :: 'l' :: 'l' :: rest) :
    parseValue (f + 1) cs = some (.null, rest) := by
  simp only [parseValue, h]

theorem parseValue_succ_true (f : Nat) (cs rest : List Char)
    (h : skipWs cs = 't' :: 'r' :: 'u' :: 'e' :: rest) :
    parseValue (f + 1) cs = some (.bool true, rest) := by
  simp only [parseValue, h]

theorem parseValue_succ_false (f : Nat) (cs rest : List Char)
    (h : skipWs cs = 'f' :: 'a' :: 'l' :: 's' :: 'e' :: rest) :
    parseValue (f + 1) cs = some (.bool false, rest) := by
  simp only [parseValue, h]

theorem parseValue_succ_str (f : Nat) (cs rest : List Char) (s : String)
    (r2 : List Char) (h : skipWs cs = '"' :: rest)
    (hsb : parseStringBody [] rest = some (s, r2)) :
    parseValue (f + 1) cs = some (.str s, r2) := by
  simp only [parseValue, h, hsb]

theorem parseValue_succ_arr_nil (f : Nat) (cs rest r2 : List Char)
    (h1 : skipWs cs = '[' :: rest) (h2 : skipWs rest = ']' :: r2) :
    parseValue (f + 1) cs = some (.arr [], r2) := by
  simp only [parseValue, h1, h2]

theorem parseValue_succ_arr_go (f : Nat) (cs rest : List Char) (c : Char)
    (t : List Char) (h1 : skipWs cs = '[' :: rest) (h2 : skipWs rest = c :: t)
    (hne : c ≠ ']') :
    parseValue (f + 1) cs = parseArrayRest f [] (c :: t) := by
  simp only [parseValue, h1, h2]
  split <;> first | rfl | simp_all

theorem parseValue_succ_obj_nil (f : Nat) (cs rest r2 : List Char)
    (h1 : skipWs cs = '\x7b' :: rest) (h2 : skipWs rest = '\x7d' :: r2) :
    parseValue (f + 1) cs = some (.obj [], r2) := by
  simp only [parseValue, h1, h2]

theorem parseValue_succ_obj_go (f : Nat) (cs rest : List Char) (c : Char)
    (t : List Char) (h1 : skipWs cs = '\x7b' :: rest)
    (h2 : skipWs rest = c :: t) (hne : c ≠ '\x7d') :
    parseValue (f + 1) cs = parseObjRest f [] (c :: t) := by
  simp only [parseValue, h1, h2]
  split <;> first | rfl | simp_all

theorem parseValue_succ_number (f : Nat) (cs : List Char) (c : Char)
    (t : List Char) (h : skipWs cs = c :: t) (hn : c ≠ 'n') (ht : c ≠ 't')
    (hf : c ≠ 'f') (hq : c ≠ '"') (hlb : c ≠ '[') (hlc : c ≠ '\x7b') :
    parseValue (f + 1) cs = parseNumber (c :: t) := by
  simp only [parseValue, h]
  split <;> first | rfl | simp_all

theorem mem_le_foldr_max (l : List Nat) (a : Nat) (h : a ∈ l) :
    a ≤ l.foldr max 0 := by
  induction l with
  | nil => cases h
  | cons b l ih =>
    rcases List.mem_cons.mp h with rfl | h
    · exact le_max_left _ _
    · exact le_trans (ih h) (le_max_right _ _)

theorem jsonDepth_arr_mem (items : List Json) (e : Json) (he : e ∈ items) :
    jsonDepth e + 1 ≤ jsonDepth (.arr items) := by
  rw [show jsonDepth (.arr items) =
      1 + (items.attach.map (fun x => jsonDepth x.1)).foldr max 0 from by
    simp [jsonDepth]]
  rw [List.attach_map_val items jsonDepth]
  have := mem_le_foldr_max (items.map jsonDepth) (jsonDepth e)
    (List.mem_map_of_mem jsonDepth he)
  omega

theorem jsonDepth_obj_mem (fields : List (String × Json)) (kv : String × Json)
    (he : kv ∈ fields) :
    jsonDepth kv.2 + 1 ≤ jsonDepth (.obj fields) := by
  rw [show jsonDepth (.obj fields) =
      1 + (fields.attach.map (fun x => jsonDepth x.1.2)).foldr max 0 from by
    simp [jsonDepth]]
  rw [List.attach_map_val fields (fun x => jsonDepth x.2)]
  have := mem_le_foldr_max (fields.map (fun x => jsonDepth x.2))
    (jsonDepth kv.2) (List.mem_map_of_mem (fun x => jsonDepth x.2) he)
  omega

theorem jsonSize_pos (j : Json) : 1 ≤ jsonSize j := by
  cases j <;> (simp only [jsonSize]) <;> omega

theorem jsonSize_arr (items : List Json) :
    jsonSize (.arr items) = 1 + (items.map (fun e => jsonSize e + 1)).sum := by
  rw [show jsonSize (.arr items) =
      1 + (items.attach.map (fun x => jsonSize x.1 + 1)).sum from by
    simp [jsonSize]]
  rw [List.attach_map_val items (fun e => jsonSize e + 1)]

theorem jsonSize_obj (fields : List (String × Json)) :
    jsonSize (.obj fields) =
      1 + (fields.map (fun kv => jsonSize kv.2 + 1)).sum := by
  rw [show jsonSize (.obj fields) =
      1 + (fields.attach.map (fun x => jsonSize x.1.2 + 1)).sum from by
    simp [jsonSize]]
  rw [List.attach_map_val fields (fun kv => jsonSize kv.2 + 1)]

theorem renderJsonF_null (rf : Nat) : renderJsonF (rf + 1) .null = "null".data := by
  simp [renderJsonF]

theorem renderJsonF_true (rf : Nat) :
    renderJsonF (rf + 1) (.bool true) = "true".data := by
  simp [renderJsonF]

theorem renderJsonF_false (rf : Nat) :
    renderJsonF (rf + 1) (.bool false) = "false".data := by
  simp [renderJsonF]

theorem renderJsonF_num (rf : Nat) (n : Int) :
    renderJsonF (rf + 1) (.num n) = intDigits n := by
  simp [renderJsonF]

theorem renderJsonF_str (rf : Nat) (s : String) :
    renderJsonF (rf + 1) (.str s) = renderString s := by
  simp [renderJsonF]

theorem renderJsonF_arr (rf : Nat) (items : List Json) :
    renderJsonF (rf + 1) (.arr items) =
      '[' :: renderItemsF rf items ++ [']'] := by
  simp [renderJsonF]

theorem renderJsonF_obj (rf : Nat) (fields : List (String × Json)) :
    renderJsonF (rf + 1) (.obj fields) =
      '\x7b' :: renderFieldsF rf fields ++ ['\x7d'] := by
  simp [renderJsonF]

theorem renderItemsF_single (rf : Nat) (x : Json) :
    renderItemsF rf [x] = renderJsonF rf x := by
  simp [renderItemsF]

theorem renderItemsF_cons2 (rf : Nat) (x y : Json) (ys : List Json) :
    renderItemsF rf (x :: y :: ys) =
      renderJsonF rf x ++ ',' :: renderItemsF rf (y :: ys) := by
  simp [renderItemsF]

theorem renderFieldsF_single (rf : Nat) (k : String) (v : Json) :
    renderFieldsF rf [(k, v)] = renderString k ++ ':' :: renderJsonF rf v := by
  simp [renderFieldsF]

theorem renderFieldsF_cons2 (rf : Nat) (k : String) (v : Json)
    (k2 : String) (v2 : Json) (ys : List (String × Json)) :
    renderFieldsF rf ((k, v) :: (k2, v2) :: ys) =
      renderString k ++ ':' :: (renderJsonF rf v ++
        ',' :: renderFieldsF rf ((k2, v2) :: ys)) := by
  simp [renderFieldsF]

theorem foldr_escape_length (l : List Char) (i : List Char) :
    i.length ≤ (l.foldr (fun c a => escapeChar c ++ a) i).length := by
  induction l with
  | nil => exact le_refl _
  | cons c l ih =>
    simp only [List.foldr_cons, List.length_append]
    omega

theorem renderString_length (s : String) : 2 ≤ (renderString s).length := by
  unfold renderString
  have := foldr_escape_length s.data ['"']
  simp only [List.length_cons]
  simp at this
  omega

theorem renderJsonF_head (j : Json) (rf : Nat) (h : jsonDepth j + 1 ≤ rf) :
    ∃ c t, renderJsonF rf j = c :: t ∧
      (c = 'n' ∨ c = 't' ∨ c = 'f' ∨ c = '"' ∨ c = '[' ∨ c = '\x7b' ∨
        c = '-' ∨ c.isDigit = true) := by
  obtain ⟨rf', rfl⟩ : ∃ rf2, rf = rf2 + 1 := ⟨rf - 1, by omega⟩
  cases j with
  | null =>
    refine ⟨'n', ['u', 'l', 'l'], ?_, by simp⟩
    rw [renderJsonF_null]
  | bool b =>
    cases b with
    | true =>
      refine ⟨'t', ['r', 'u', 'e'], ?_, by simp⟩
      rw [renderJsonF_true]
    | false =>
      refine ⟨'f', ['a', 'l', 's', 'e'], ?_, by simp⟩
      rw [renderJsonF_false]
  | num n =>
    cases n with
    | ofNat m =>
      obtain ⟨d, ds, hnd⟩ : ∃ d ds, natDigits m = d :: ds := by
        cases hx : natDigits m with
        | nil => exact absurd hx (natDigits_ne_nil m)
        | cons d ds => exact ⟨d, ds, rfl⟩
      have hd : d.isDigit = true :=
        natDigits_all_digits m d (hnd ▸ List.mem_cons_self _ _)
      refine ⟨d, ds, ?_, by simp [hd]⟩
      rw [renderJsonF_num]
      exact hnd
    | negSucc m =>
      refine ⟨'-', natDigits (m + 1), ?_, by simp⟩
      rw [renderJsonF_num]
      rfl
  | str s =>
    refine ⟨'"', s.data.foldr (fun c a => escapeChar c ++ a) ['"'], ?_, by simp⟩
    rw [renderJsonF_str]
    rfl
  | arr items =>
    refine ⟨'[', renderItemsF rf' items ++ [']'], ?_, by simp⟩
    rw [renderJsonF_arr]
    rfl
  | obj fields =>
    refine ⟨'\x7b', renderFieldsF rf' fields ++ ['\x7d'], ?_, by simp⟩
    rw [renderJsonF_obj]
    rfl

theorem headshape_not_ws (c : Char)
    (h : c = 'n' ∨ c = 't' ∨ c = 'f' ∨ c = '"' ∨ c = '[' ∨ c = '\x7b' ∨
      c = '-' ∨ c.isDigit = true) :
    ¬(c = ' ' ∨ c = '\t' ∨ c = '\n' ∨ c = '\r') := by
  rcases h with rfl | rfl | rfl | rfl | rfl | rfl | rfl | hd
  · decide
  · decide
  · decide
  · decide
  · decide
  · decide
  · decide
  · rintro (rfl | rfl | rfl | rfl) <;> exact absurd hd (by decide)

theorem headshape_ne_rbracket (c : Char)
    (h : c = 'n' ∨ c = 't' ∨ c = 'f' ∨ c = '"' ∨ c = '[' ∨ c = '\x7b' ∨
      c = '-' ∨ c.isDigit = true) : c ≠ ']' := by
  rcases h with rfl | rfl | rfl | rfl | rfl | rfl | rfl | hd
  · decide
  · decide
  · decide
  · decide
  · decide
  · decide
  · decide
  · rintro rfl
    exact absurd hd (by decide)

theorem headshape_ne_rbrace (c : Char)
    (h : c = 'n' ∨ c = 't' ∨ c = 'f' ∨ c = '"' ∨ c = '[' ∨ c = '\x7b' ∨
      c = '-' ∨ c.isDigit = true) : c ≠ '\x7d' := by
  rcases h with rfl | rfl | rfl | rfl | rfl | rfl | rfl | hd
  · decide
  · decide
  · decide
  · decide
  · decide
  · decide
  · decide
  · rintro rfl
    exact absurd hd (by decide)

theorem renderF_length (rf : Nat) :
    (∀ j, jsonDepth j + 1 ≤ rf → jsonSize j ≤ (renderJsonF rf j).length) ∧
    (∀ xs : List Json, xs ≠ [] → (∀ e ∈ xs, jsonDepth e + 1 ≤ rf) →
      (xs.map (fun e => jsonSize e + 1)).sum ≤ (renderItemsF rf xs).length + 1) ∧
    (∀ fs : List (String × Json), fs ≠ [] →
      (∀ kv ∈ fs, jsonDepth kv.2 + 1 ≤ rf) →
      (fs.map (fun kv => jsonSize kv.2 + 1)).sum ≤
        (renderFieldsF rf fs).length + 1) := by
  induction rf with
  | zero =>
    refine ⟨?_, ?_, ?_⟩
    · intro j h
      omega
    · intro xs hne hdep
      cases xs with
      | nil => exact absurd rfl hne
      | cons x xs =>
        exact absurd (hdep x (List.mem_cons_self _ _)) (by omega)
    · intro fs hne hdep
      cases fs with
      | nil => exact absurd rfl hne
      | cons kv fs =>
        exact absurd (hdep kv (List.mem_cons_self _ _)) (by omega)
  | succ rf ih =>
    obtain ⟨ihv, ihi, ihf⟩ := ih
    have hv : ∀ j, jsonDepth j + 1 ≤ rf + 1 →
        jsonSize j ≤ (renderJsonF (rf + 1) j).length := by
      intro j hdep
      cases j with
      | null =>
        rw [renderJsonF_null, show jsonSize Json.null = 1 from by simp [jsonSize]]
        decide
      | bool b =>
        cases b with
        | true =>
          rw [renderJsonF_true,
            show jsonSize (Json.bool true) = 1 from by simp [jsonSize]]
          decide
        | false =>
          rw [renderJsonF_false,
            show jsonSize (Json.bool false) = 1 from by simp [jsonSize]]
          decide
      | num n =>
        rw [renderJsonF_num, show jsonSize (Json.num n) = 1 from by simp [jsonSize]]
        refine List.length_pos.mpr ?_
        cases n with
        | ofNat m => simpa [intDigits] using natDigits_ne_nil m
        | negSucc m => simp [intDigits]
      | str s =>
        rw [renderJsonF_str, show jsonSize (Json.str s) = 1 from by simp [jsonSize]]
        have := renderString_length s
        omega
      | arr items =>
        rw [renderJsonF_arr, jsonSize_arr]
        cases items with
        | nil => simp [renderItemsF]
        | cons x xs =>
          have hdep2 : ∀ e ∈ x :: xs, jsonDepth e + 1 ≤ rf := by
            intro e he
            have := jsonDepth_arr_mem (x :: xs) e he
            omega
          have hsum := ihi (x :: xs) (by simp) hdep2
          simp only [List.length_cons, List.length_append, List.length_nil]
          omega
      | obj fields =>
        rw [renderJsonF_obj, jsonSize_obj]
        cases fields with
        | nil => simp [renderFieldsF]
        | cons kv fs =>
          have hdep2 : ∀ e ∈ kv :: fs, jsonDepth e.2 + 1 ≤ rf := by
            intro e he
            have := jsonDepth_obj_mem (kv :: fs) e he
            omega
          have hsum := ihf (kv :: fs) (by simp) hdep2
          simp only [List.length_cons, List.length_append, List.length_nil]
          omega
    have hi : ∀ xs : List Json, xs ≠ [] →
        (∀ e ∈ xs, jsonDepth e + 1 ≤ rf + 1) →
        (xs.map (fun e => jsonSize e + 1)).sum ≤
          (renderItemsF (rf + 1) xs).length + 1 := by
      intro xs
      induction xs with
      | nil => intro hne _; exact absurd rfl hne
      | cons x xs ih2 =>
        intro _ hdep
        cases xs with
        | nil =>
          rw [renderItemsF_single]
          have := hv x (hdep x (List.mem_cons_self _ _))
          simp only [List.map_cons, List.map_nil, List.sum_cons, List.sum_nil]
          omega
        | cons y ys =>
          rw [renderItemsF_cons2]
          have h1 := hv x (hdep x (List.mem_cons_self _ _))
          have h2 := ih2 (by simp)
            (fun e he => hdep e (List.mem_cons_of_mem _ he))
          simp only [List.map_cons, List.sum_cons, List.length_append,
            List.length_cons] at *
          omega
    have hf : ∀ fs : List (String × Json), fs ≠ [] →
        (∀ kv ∈ fs, jsonDepth kv.2 + 1 ≤ rf + 1) →
        (fs.map (fun kv => jsonSize kv.2 + 1)).sum ≤
          (renderFieldsF (rf + 1) fs).length + 1 := by
      intro fs
      induction fs with
      | nil => intro hne _; exact absurd rfl hne
      | cons kv fs ih2 =>
        obtain ⟨k, v⟩ := kv
        intro _ hdep
        cases fs with
        | nil =>
          rw [renderFieldsF_single]
          have h1 := hv v (hdep (k, v) (List.mem_cons_self _ _))
          have h2 := renderString_length k
          simp only [List.map_cons, List.map_nil, List.sum_cons, List.sum_nil,
            List.length_append, List.length_cons]
          omega
        | cons kv2 fs2 =>
          obtain ⟨k2, v2⟩ := kv2
          rw [renderFieldsF_cons2]
          have h1 := hv v (hdep (k, v) (List.mem_cons_self _ _))
          have h2 := ih2 (by simp)
            (fun e he => hdep e (List.mem_cons_of_mem _ he))
          have h3 := renderString_length k
          simp only [List.map_cons, List.sum_cons, List.length_append,
            List.length_cons] at *
          omega
    exact ⟨hv, hi, hf⟩

theorem digit_head_facts (c : Char) (hd : c.isDigit = true) :
    c ≠ 'n' ∧ c ≠ 't' ∧ c ≠ 'f' ∧ c ≠ '"' ∧ c ≠ '[' ∧ c ≠ '\x7b' := by
  refine ⟨?_, ?_, ?_, ?_, ?_, ?_⟩ <;> (rintro rfl; exact absurd hd (by decide))

theorem parse_renderF (pf : Nat) :
    (∀ j rf rest, jsonDepth j + 1 ≤ rf → jsonSize j ≤ pf → noDigitHead rest →
      parseValue pf (renderJsonF rf j ++ rest) = some (j, rest)) ∧
    (∀ xs : List Json, ∀ rf acc rest, xs ≠ [] →
      (∀ e ∈ xs, jsonDepth e + 1 ≤ rf) →
      (xs.map (fun e => jsonSize e + 1)).sum ≤ pf →
      parseArrayRest pf acc (renderItemsF rf xs ++ ']' :: rest) =
        some (.arr (acc.reverse ++ xs), rest)) ∧
    (∀ fs : List (String × Json), ∀ rf acc rest, fs ≠ [] →
      (∀ kv ∈ fs, jsonDepth kv.2 + 1 ≤ rf) →
      (fs.map (fun kv => jsonSize kv.2 + 1)).sum ≤ pf →
      parseObjRest pf acc (renderFieldsF rf fs ++ '\x7d' :: rest) =
        some (.obj (acc.reverse ++ fs), rest)) := by
  induction pf with
  | zero =>
    refine ⟨?_, ?_, ?_⟩
    · intro j rf rest _ hsize _
      exact absurd hsize (by have := jsonSize_pos j; omega)
    · intro xs rf acc rest hne _ hsum
      cases xs with
      | nil => exact absurd rfl hne
      | cons x xs =>
        simp only [List.map_cons, List.sum_cons] at hsum
        omega
    · intro fs rf acc rest hne _ hsum
      cases fs with
      | nil => exact absurd rfl hne
      | cons kv fs =>
        simp only [List.map_cons, List.sum_cons] at hsum
        omega
  | succ pf ih =>
    obtain ⟨ihv, ihi, ihf⟩ := ih
    have hv : ∀ j rf rest, jsonDepth j + 1 ≤ rf → jsonSize j ≤ pf + 1 →
        noDigitHead rest →
        parseValue (pf + 1) (renderJsonF rf j ++ rest) = some (j, rest) := by
      intro j rf rest hdep hsize hrest
      obtain ⟨rf', rfl⟩ : ∃ x, rf = x + 1 := ⟨rf - 1, by omega⟩
      cases j with
      | null =>
        rw [renderJsonF_null]
        refine parseValue_succ_null pf _ rest ?_
        show skipWs ('n' :: 'u' :: 'l' :: 'l' :: rest) = _
        exact skipWs_cons 'n' _ (by decide)
      | bool b =>
        cases b with
        | true =>
          rw [renderJsonF_true]
          refine parseValue_succ_true pf _ rest ?_
          show skipWs ('t' :: 'r' :: 'u' :: 'e' :: rest) = _
          exact skipWs_cons 't' _ (by decide)
        | false =>
          rw [renderJsonF_false]
          refine parseValue_succ_false pf _ rest ?_
          show skipWs ('f' :: 'a' :: 'l' :: 's' :: 'e' :: rest) = _
          exact skipWs_cons 'f' _ (by decide)
      | num n =>
        have hshape : ∃ c t, intDigits n = c :: t ∧
            (c = '-' ∨ c.isDigit = true) := by
          cases n with
          | ofNat m =>
            obtain ⟨d, ds, hnd⟩ : ∃ d ds, natDigits m = d :: ds := by
              cases hx : natDigits m with
              | nil => exact absurd hx (natDigits_ne_nil m)
              | cons d ds => exact ⟨d, ds, rfl⟩
            exact ⟨d, ds, by simpa [intDigits] using hnd,
              Or.inr (natDigits_all_digits m d (hnd ▸ List.mem_cons_self _ _))⟩
          | negSucc m => exact ⟨'-', natDigits (m + 1), rfl, Or.inl rfl⟩
        obtain ⟨c, t, hct, hcd⟩ := hshape
        rw [renderJsonF_num, hct, List.cons_append]
        have hnotws : ¬(c = ' ' ∨ c = '\t' ∨ c = '\n' ∨ c = '\r') := by
          rcases hcd with rfl | hd
          · decide
          · rintro (rfl | rfl | rfl | rfl) <;> exact absurd hd (by decide)
        have hne6 : c ≠ 'n' ∧ c ≠ 't' ∧ c ≠ 'f' ∧ c ≠ '"' ∧ c ≠ '[' ∧
            c ≠ '\x7b' := by
          rcases hcd with rfl | hd
          · exact ⟨by decide, by decide, by decide, by decide, by decide,
              by decide⟩
          · exact digit_head_facts c hd
        rw [parseValue_succ_number pf _ c (t ++ rest)
          (skipWs_cons c (t ++ rest) hnotws) hne6.1 hne6.2.1 hne6.2.2.1
          hne6.2.2.2.1 hne6.2.2.2.2.1 hne6.2.2.2.2.2]
        rw [show c :: (t ++ rest) = (c :: t) ++ rest from rfl, ← hct]
        exact parseNumber_intDigits n rest hrest
      | str s =>
        rw [renderJsonF_str]
        have heq : renderString s ++ rest =
            '"' :: s.data.foldr (fun c a => escapeChar c ++ a) ('"' :: rest) := by
          unfold renderString
          rw [List.cons_append, foldr_escape_append]
          rfl
        rw [heq]
        exact parseValue_succ_str pf _ _ s rest
          (skipWs_cons '"' _ (by decide)) (parseStringBody_renderString s rest)
      | arr items =>
        rw [renderJsonF_arr]
        cases items with
        | nil =>
          rw [show renderItemsF rf' [] = [] from by simp [renderItemsF]]
          rw [show ('[' :: [] ++ [']']) ++ rest = '[' :: ']' :: rest from rfl]
          exact parseValue_succ_arr_nil pf _ (']' :: rest) rest
            (skipWs_cons '[' _ (by decide)) (skipWs_cons ']' _ (by decide))
        | cons x xs =>
          have hassoc : ('[' :: renderItemsF rf' (x :: xs) ++ [']']) ++ rest =
              '[' :: (renderItemsF rf' (x :: xs) ++ ']' :: rest) := by
            simp
          rw [hassoc]
          have hdepx : jsonDepth x + 1 ≤ rf' := by
            have := jsonDepth_arr_mem (x :: xs) x (List.mem_cons_self _ _)
            omega
          obtain ⟨c, t, hct, hcs⟩ := renderJsonF_head x rf' hdepx
          have hhead : ∃ T, renderItemsF rf' (x :: xs) ++ ']' :: rest =
              c :: T := by
            cases xs with
            | nil =>
              rw [renderItemsF_single, hct]
              exact ⟨t ++ ']' :: rest, by simp⟩
            | cons y ys =>
              rw [renderItemsF_cons2, hct]
              exact ⟨t ++ ',' :: renderItemsF rf' (y :: ys) ++ ']' :: rest,
                by simp⟩
          obtain ⟨T, hT⟩ := hhead
          rw [parseValue_succ_arr_go pf _ _ c T
            (skipWs_cons '[' _ (by decide))
            (by rw [hT]; exact skipWs_cons c T (headshape_not_ws c hcs))
            (headshape_ne_rbracket c hcs)]
          rw [← hT]
          have hdeps : ∀ e ∈ x :: xs, jsonDepth e + 1 ≤ rf' := by
            intro e he
            have := jsonDepth_arr_mem (x :: xs) e he
            omega
          have hsum : ((x :: xs).map (fun e => jsonSize e + 1)).sum ≤ pf := by
            rw [jsonSize_arr] at hsize
            omega
          have := ihi (x :: xs) rf' [] rest (by simp) hdeps hsum
          simpa using this
      | obj fields =>
        rw [renderJsonF_obj]
        cases fields with
        | nil =>
          rw [show renderFieldsF rf' [] = [] from by simp [renderFieldsF]]
          rw [show ('\x7b' :: [] ++ ['\x7d']) ++ rest =
            '\x7b' :: '\x7d' :: rest from rfl]
          exact parseValue_succ_obj_nil pf _ ('\x7d' :: rest) rest
            (skipWs_cons '\x7b' _ (by decide)) (skipWs_cons '\x7d' _ (by decide))
        | cons kv fs =>
          obtain ⟨k, v⟩ := kv
          have hassoc : ('\x7b' :: renderFieldsF rf' ((k, v) :: fs) ++
              ['\x7d']) ++ rest =
              '\x7b' :: (renderFieldsF rf' ((k, v) :: fs) ++ '\x7d' :: rest) := by
            simp
          rw [hassoc]
          have hhead : ∃ T, renderFieldsF rf' ((k, v) :: fs) ++ '\x7d' :: rest =
              '"' :: T := by
            cases fs with
            | nil =>
              rw [renderFieldsF_single]
              refine ⟨(k.data.foldr (fun c a => escapeChar c ++ a) ['"'] ++
                ':' :: renderJsonF rf' v) ++ '\x7d' :: rest, ?_⟩
              rw [show renderString k =
                '"' :: k.data.foldr (fun c a => escapeChar c ++ a) ['"']
                from rfl]
              simp
            | cons kv2 fs2 =>
              obtain ⟨k2, v2⟩ := kv2
              rw [renderFieldsF_cons2]
              refine ⟨(k.data.foldr (fun c a => escapeChar c ++ a) ['"'] ++
                ':' :: (renderJsonF rf' v ++
                  ',' :: renderFieldsF rf' ((k2, v2) :: fs2))) ++
                '\x7d' :: rest, ?_⟩
              rw [show renderString k =
                '"' :: k.data.foldr (fun c a => escapeChar c ++ a) ['"']
                from rfl]
              simp
          obtain ⟨T, hT⟩ := hhead
          rw [parseValue_succ_obj_go pf _ _ '"' T
            (skipWs_cons '\x7b' _ (by decide))
            (by rw [hT]; exact skipWs_cons '"' T (by decide))
            (by decide)]
          rw [← hT]
          have hdeps : ∀ e ∈ (k, v) :: fs, jsonDepth e.2 + 1 ≤ rf' := by
            intro e he
            have := jsonDepth_obj_mem ((k, v) :: fs) e he
            omega
          have hsum : (((k, v) :: fs).map (fun kv => jsonSize kv.2 + 1)).sum
              ≤ pf := by
            rw [jsonSize_obj] at hsize
            omega
          have := ihf ((k, v) :: fs) rf' [] rest (by simp) hdeps hsum
          simpa using this
    have hi : ∀ xs : List Json, ∀ rf acc rest, xs ≠ [] →
        (∀ e ∈ xs, jsonDepth e + 1 ≤ rf) →
        (xs.map (fun e => jsonSize e + 1)).sum ≤ pf + 1 →
        parseArrayRest (pf + 1) acc (renderItemsF rf xs ++ ']' :: rest) =
          some (.arr (acc.reverse ++ xs), rest) := by
      intro xs rf acc rest hne hdeps hsum
      cases xs with
      | nil => exact absurd rfl hne
      | cons x xs =>
        cases xs with
        | nil =>
          rw [renderItemsF_single]
          have hpv := ihv x rf (']' :: rest)
            (hdeps x (List.mem_cons_self _ _))
            (by simp only [List.map_cons, List.map_nil, List.sum_cons,
              List.sum_nil] at hsum; omega)
            (by simp only [noDigitHead]; decide)
          simp only [parseArrayRest, hpv, skipWs_cons ']' rest (by decide)]
          simp
        | cons y ys =>
          rw [renderItemsF_cons2]
          have hassoc : (renderJsonF rf x ++
              ',' :: renderItemsF rf (y :: ys)) ++ ']' :: rest =
              renderJsonF rf x ++
                (',' :: (renderItemsF rf (y :: ys) ++ ']' :: rest)) := by
            simp
          rw [hassoc]
          have hpv := ihv x rf
            (',' :: (renderItemsF rf (y :: ys) ++ ']' :: rest))
            (hdeps x (List.mem_cons_self _ _))
            (by simp only [List.map_cons, List.sum_cons] at hsum; omega)
            (by simp only [noDigitHead]; decide)
          simp only [parseArrayRest, hpv,
            skipWs_cons ',' (renderItemsF rf (y :: ys) ++ ']' :: rest)
              (by decide)]
          have hrec := ihi (y :: ys) rf (x :: acc) rest (by simp)
            (fun e he => hdeps e (List.mem_cons_of_mem _ he))
            (by simp only [List.map_cons, List.sum_cons] at hsum ⊢; omega)
          rw [hrec]
          simp
    have hf : ∀ fs : List (String × Json), ∀ rf acc rest, fs ≠ [] →
        (∀ kv ∈ fs, jsonDepth kv.2 + 1 ≤ rf) →
        (fs.map (fun kv => jsonSize kv.2 + 1)).sum ≤ pf + 1 →
        parseObjRest (pf + 1) acc (renderFieldsF rf fs ++ '\x7d' :: rest) =
          some (.obj (acc.reverse ++ fs), rest) := by
      intro fs rf acc rest hne hdeps hsum
      cases fs with
      | nil => exact absurd rfl hne
      | cons kv fs =>
        obtain ⟨k, v⟩ := kv
        cases fs with
        | nil =>
          rw [renderFieldsF_single]
          have hkey : (renderString k ++ ':' :: renderJsonF rf v) ++
              '\x7d' :: rest =
              '"' :: k.data.foldr (fun c a => escapeChar c ++ a)
                ('"' :: (':' :: (renderJsonF rf v ++ '\x7d' :: rest))) := by
            rw [show renderString k =
              '"' :: k.data.foldr (fun c a => escapeChar c ++ a) ['"']
              from rfl]
            simp only [List.cons_append, List.append_assoc]
            rw [foldr_escape_append]
            rfl
          rw [hkey]
          have hpv := ihv v rf ('\x7d' :: rest)
            (hdeps (k, v) (List.mem_cons_self _ _))
            (by simp only [List.map_cons, List.map_nil, List.sum_cons,
              List.sum_nil] at hsum; omega)
            (by simp only [noDigitHead]; decide)
          simp only [parseObjRest, skipWs_cons '"' _ (by decide),
            parseStringBody_renderString k
              (':' :: (renderJsonF rf v ++ '\x7d' :: rest)),
            skipWs_cons ':' _ (by decide), hpv,
            skipWs_cons '\x7d' rest (by decide)]
          simp
        | cons kv2 fs2 =>
          obtain ⟨k2, v2⟩ := kv2
          rw [renderFieldsF_cons2]
          have hkey : (renderString k ++ ':' :: (renderJsonF rf v ++
              ',' :: renderFieldsF rf ((k2, v2) :: fs2))) ++ '\x7d' :: rest =
              '"' :: k.data.foldr (fun c a => escapeChar c ++ a)
                ('"' :: (':' :: (renderJsonF rf v ++
                  (',' :: (renderFieldsF rf ((k2, v2) :: fs2) ++
                    '\x7d' :: rest))))) := by
            rw [show renderString k =
              '"' :: k.data.foldr (fun c a => escapeChar c ++ a) ['"']
              from rfl]
            simp only [List.cons_append, List.append_assoc]
            rw [foldr_escape_append]
            rfl
          rw [hkey]
          have hpv := ihv v rf
            (',' :: (renderFieldsF rf ((k2, v2) :: fs2) ++ '\x7d' :: rest))
            (hdeps (k, v) (List.mem_cons_self _ _))
            (by simp only [List.map_cons, List.sum_cons] at hsum; omega)
            (by simp only [noDigitHead]; decide)
          simp only [parseObjRest, skipWs_cons '"' _ (by decide),
            parseStringBody_renderString k
              (':' :: (renderJsonF rf v ++
                (',' :: (renderFieldsF rf ((k2, v2) :: fs2) ++
                  '\x7d' :: rest)))),
            skipWs_cons ':' _ (by decide), hpv,
            skipWs_cons ','
              (renderFieldsF rf ((k2, v2) :: fs2) ++ '\x7d' :: rest)
              (by decide)]
          have hrec := ihf ((k2, v2) :: fs2) rf ((k, v) :: acc) rest (by simp)
            (fun e he => hdeps e (List.mem_cons_of_mem _ he))
            (by simp only [List.map_cons, List.sum_cons] at hsum ⊢; omega)
          rw [hrec]
          simp
    exact ⟨hv, hi, hf⟩

theorem classify_messageToWire (m : JSONRPCMessage) :
    classify (messageToWire m) = .ok m := by
  cases m with
  | request r =>
    obtain ⟨i, mth, p⟩ := r
    cases p <;> rfl
  | notification n =>
    obtain ⟨mth, p⟩ := n
    cases p <;> rfl
  | response r =>
    obtain ⟨i, pl⟩ := r
    cases pl <;> rfl

theorem decodeJson_serialize (m : JSONRPCMessage) :
    decodeJson (serialize m) = some (messageToWire m) := by
  have hlen := (renderF_length (jsonDepth (messageToWire m) + 1)).1
    (messageToWire m) (le_refl _)
  have hpv := (parse_renderF
      ((renderJsonF (jsonDepth (messageToWire m) + 1)
        (messageToWire m)).length + 1)).1
    (messageToWire m) (jsonDepth (messageToWire m) + 1) [] (le_refl _)
    (by omega) trivial
  rw [List.append_nil] at hpv
  unfold decodeJson serialize
  rw [show (String.mk (renderJsonF (jsonDepth (messageToWire m) + 1)
      (messageToWire m))).data =
    renderJsonF (jsonDepth (messageToWire m) + 1) (messageToWire m) from rfl]
  rw [show (String.mk (renderJsonF (jsonDepth (messageToWire m) + 1)
      (messageToWire m))).length =
    (renderJsonF (jsonDepth (messageToWire m) + 1)
      (messageToWire m)).length from rfl]
  rw [hpv]
  simp [skipWs]

/-- C3: the round-trip identity — parsing the serialized text of every
message of each of the four kinds (request, notification,
response-with-result, response-with-error) returns exactly that message,
and the serialized text is a single line containing no newline
character. -/
theorem serialize_roundtrip (m : JSONRPCMessage) :
    parse_message (serialize m) = .msg m ∧
    ∀ c ∈ (serialize m).data, c ≠ '\n' := by
  constructor
  · simp [parse_message, decodeJson_serialize m, classify_messageToWire m]
  · intro c hc hceq
    subst hceq
    exact serialize_no_newline m hc

theorem findPending_eq_some (t : List PendingRequest) (e : PendingRequest)
    (hnd : (t.map PendingRequest.id).Nodup) (he : e ∈ t) :
    findPending t e.id = some e := by
  induction t with
  | nil => cases he
  | cons x xs ih =>
    rcases List.mem_cons.mp he with rfl | hmem
    · simp [findPending]
    · have hx : x.id ∉ xs.map PendingRequest.id :=
        (List.nodup_cons.mp (by simpa using hnd)).1
      have hne : (x.id == e.id) = false := by
        refine beq_eq_false_iff_ne.mpr ?_
        intro hcontra
        exact hx (hcontra ▸ List.mem_map_of_mem PendingRequest.id hmem)
      have ht : findPending xs e.id = some e :=
        ih (List.nodup_cons.mp (by simpa using hnd)).2 hmem
      simpa [findPending, List.find?_cons, hne] using ht

theorem findPending_eq_none_iff (t : List PendingRequest) (i : RequestId) :
    findPending t i = none ↔ ∀ e ∈ t, e.id ≠ i := by
  constructor
  · intro h e he
    have := List.find?_eq_none.mp h e he
    simpa using this
  · intro h
    exact List.find?_eq_none.mpr (fun e he => by simpa using h e he)

theorem findPending_some_id (t : List PendingRequest) (i : RequestId)
    (e : PendingRequest) (h : findPending t i = some e) : e.id = i := by
  have := List.find?_some h
  simpa using this

theorem mem_removePending (t : List PendingRequest) (e : PendingRequest)
    (i : RequestId) (he : e ∈ t) (hne : e.id ≠ i) :
    e ∈ removePending t i :=
  List.mem_filter.mpr ⟨he, by simp [hne]⟩

theorem mem_removePending_ne (t : List PendingRequest) (e : PendingRequest)
    (i : RequestId) (he : e ∈ removePending t i) : e ∈ t ∧ e.id ≠ i := by
  have h := List.mem_filter.mp he
  refine ⟨h.1, ?_⟩
  have := h.2
  simp at this
  exact this

theorem removePending_nodup (t : List PendingRequest) (i : RequestId)
    (hnd : (t.map PendingRequest.id).Nodup) :
    ((removePending t i).map PendingRequest.id).Nodup :=
  hnd.sublist ((List.filter_sublist t).map PendingRequest.id)

theorem dispatch_nodup (t : List PendingRequest) (m : JSONRPCMessage)
    (hnd : (t.map PendingRequest.id).Nodup) :
    ((dispatch t m).1.map PendingRequest.id).Nodup := by
  cases m with
  | request r => exact hnd
  | notification n => exact hnd
  | response r =>
    cases hdec : r.id.toRequestId with
    | none => simpa [dispatch, hdec] using hnd
    | some i =>
      cases hfind : findPending t i with
      | none => simpa [dispatch, hdec, hfind] using hnd
      | some e =>
        simpa [dispatch, hdec, hfind] using removePending_nodup t i hnd

/-- C5: when the deadline fires for the only in-flight request, the call
resolves as a TimeoutError identifying the method and id, its entry is
removed leaving the pending table empty, and a response for that id
arriving afterwards is dropped by dispatch — no outcome is delivered. -/
theorem timeout_removes_entry_and_drops_late (e : PendingRequest)
    (r : JSONRPCResponse) (hid : r.id.toRequestId = some e.id) :
    engineStep [e] (.timeoutFire e.id) = ([], [.timedOut e.method e.id]) ∧
    dispatch (engineStep [e] (.timeoutFire e.id)).1 (.response r) = ([], []) := by
  have hfind : findPending [e] e.id = some e := by
    simp [findPending]
  have hrem : removePending [e] e.id = [] := by
    simp [removePending]
  constructor
  · simp [engineStep, hfind, hrem]
  · simp [engineStep, hfind, hrem, dispatch, hid, findPending]

/-- C5 witness: a concrete single-entry table timing out. -/
theorem timeout_removes_entry_and_drops_late_witness :
    engineStep [⟨.num 1, "test", 5⟩] (.timeoutFire (.num 1)) =
      ([], [.timedOut "test" (.num 1)]) ∧
    dispatch (engineStep [⟨.num 1, "test", 5⟩] (.timeoutFire (.num 1))).1
      (.response ⟨Json.num 1, .result .null⟩) = ([], []) :=
  timeout_removes_entry_and_drops_late ⟨.num 1, "test", 5⟩
    ⟨Json.num 1, .result .null⟩ rfl

/-- C4: an unparsable line ahead of a valid response is discarded
without terminating the channel, and the following valid response is
still delivered to the caller waiting on id 1 — pumping both lines
resolves the pending request with the empty-object result and empties
the table. -/
theorem malformed_line_then_valid_response (bad : String) (d : Nat)
    (hbad : decodeJson bad = none) :
    pumpLines [⟨.num 1, "test", d⟩]
      [bad, "\x7b\"jsonrpc\":\"2.0\",\"id\":1,\"result\":\x7b\x7d\x7d"] =
      ([], [.fulfilled (.num 1) (.result (.obj []))]) := by
  have hcons : ∀ (t : List PendingRequest) (line : String) (rest : List String),
      pumpLines t (line :: rest) =
        ((pumpLines (pumpLine t line).1 rest).1,
          (pumpLine t line).2 ++ (pumpLines (pumpLine t line).1 rest).2) :=
    fun _ _ _ => rfl
  have h1 : pumpLine [⟨.num 1, "test", d⟩] bad = ([⟨.num 1, "test", d⟩], []) := by
    simp [pumpLine, parse_message, hbad]
  have h2 : parse_message "\x7b\"jsonrpc\":\"2.0\",\"id\":1,\"result\":\x7b\x7d\x7d" =
      .msg (.response ⟨Json.num 1, .result (.obj [])⟩) := by rfl
  have h3 : dispatch [⟨.num 1, "test", d⟩]
      (.response ⟨Json.num 1, .result (.obj [])⟩) =
      ([], [.fulfilled (.num 1) (.result (.obj []))]) := rfl
  have h4 : pumpLine [⟨.num 1, "test", d⟩]
      "\x7b\"jsonrpc\":\"2.0\",\"id\":1,\"result\":\x7b\x7d\x7d" =
      ([], [.fulfilled (.num 1) (.result (.obj []))]) := by
    simp only [pumpLine, h2, h3]
  rw [hcons, h1, hcons, h4]
  simp [pumpLines]

/-- C4 witness: the literal not-json line from the test scenario. -/
theorem malformed_line_then_valid_response_witness :
    pumpLines [⟨.num 1, "test", 9⟩]
      ["not json", "\x7b\"jsonrpc\":\"2.0\",\"id\":1,\"result\":\x7b\x7d\x7d"] =
      ([], [.fulfilled (.num 1) (.result (.obj []))]) :=
  malformed_line_then_valid_response "not json" 9 rfl

theorem engineStep_nodup (t : List PendingRequest) (ev : EngineEvent)
    (hnd : (t.map PendingRequest.id).Nodup) :
    ((engineStep t ev).1.map PendingRequest.id).Nodup := by
  cases ev with
  | send e =>
    cases hfind : findPending t e.id with
    | some x => simpa [engineStep, hfind] using hnd
    | none =>
      have hfresh : e.id ∉ t.map PendingRequest.id := by
        intro hmem
        obtain ⟨x, hx, hxid⟩ := List.mem_map.mp hmem
        exact (findPending_eq_none_iff t e.id).mp hfind x hx hxid
      simp only [engineStep, hfind, List.map_append, List.map_cons,
        List.map_nil]
      exact List.Nodup.append hnd (List.nodup_singleton e.id)
        (by simpa [List.disjoint_singleton] using hfresh)
  | inbound m => exact dispatch_nodup t m hnd
  | timeoutFire i =>
    cases hfind : findPending t i with
    | some x => simpa [engineStep, hfind] using removePending_nodup t i hnd
    | none => simpa [engineStep, hfind] using hnd
  | close => simp [engineStep]

/-- C6: the pending-table invariant — every table reachable from the
empty table through engine events has pairwise-distinct RequestIds (at
most one live PendingRequest per id), and a live entry is removed by a
transition exactly when that transition is one of its three terminal
events: a response matching its id, its own deadline firing, or channel
close; every other event leaves the entry in the table. -/
theorem pending_table_invariant :
    (∀ evs, ((runEngine evs).map PendingRequest.id).Nodup) ∧
    (∀ t ev e, ((t.map PendingRequest.id).Nodup) → e ∈ t →
      (e ∈ (engineStep t ev).1 ↔ ¬ terminalFor e ev)) := by
  constructor
  · intro evs
    have hgen : ∀ t, ((t.map PendingRequest.id).Nodup) →
        (((evs.foldl (fun t ev => (engineStep t ev).1) t).map
          PendingRequest.id).Nodup) := by
      induction evs with
      | nil => intro t h; exact h
      | cons ev rest ih =>
        intro t h
        exact ih (engineStep t ev).1 (engineStep_nodup t ev h)
    exact hgen [] (by simp)
  · intro t ev e hnd he
    cases ev with
    | send e2 =>
      have hmem : e ∈ (engineStep t (.send e2)).1 := by
        cases hfind : findPending t e2.id with
        | some x => simpa [engineStep, hfind] using he
        | none =>
          simp only [engineStep, hfind, List.mem_append]
          exact Or.inl he
      simpa [terminalFor] using hmem
    | close =>
      simp [engineStep, terminalFor]
    | timeoutFire i =>
      by_cases hid : e.id = i
      · subst hid
        have hfind : findPending t e.id = some e := findPending_eq_some t e hnd he
        simp only [engineStep, hfind, terminalFor]
        constructor
        · intro hmem
          exact absurd (mem_removePending_ne t e e.id hmem).2 (by simp)
        · intro hcontra
          exact (hcontra trivial).elim
      · have hiff : ¬ terminalFor e (.timeoutFire i) := by
          simpa [terminalFor] using fun h => hid h.symm
        cases hfind : findPending t i with
        | none => simpa [engineStep, hfind, hiff] using he
        | some x =>
          simp only [engineStep, hfind]
          refine iff_of_true ?_ hiff
          exact mem_removePending t e i he hid
    | inbound m =>
      cases m with
      | request r => simpa [engineStep, dispatch, terminalFor] using he
      | notification n => simpa [engineStep, dispatch, terminalFor] using he
      | response r =>
        cases hdec : r.id.toRequestId with
        | none =>
          have : ¬ terminalFor e (.inbound (.response r)) := by
            simp [terminalFor, hdec]
          simpa [engineStep, dispatch, hdec, this] using he
        | some i =>
          by_cases hid : e.id = i
          · subst hid
            have hfind : findPending t e.id = some e :=
              findPending_eq_some t e hnd he
            simp only [engineStep, dispatch, hdec, hfind, terminalFor]
            constructor
            · intro hmem
              exact absurd (mem_removePending_ne t e e.id hmem).2 (by simp)
            · intro hcontra
              exact (hcontra trivial).elim
          · have hterm : ¬ terminalFor e (.inbound (.response r)) := by
              simp only [terminalFor, hdec]
              intro hcontra
              exact hid (Option.some.inj hcontra).symm
            cases hfind : findPending t i with
            | none => simpa [engineStep, dispatch, hdec, hfind, hterm] using he
            | some x =>
              simp only [engineStep, dispatch, hdec, hfind]
              refine iff_of_true ?_ hterm
              exact mem_removePending t e i he hid

/-- C6 witness: a non-matching send event leaves the concrete entry in
the table. -/
theorem pending_table_invariant_witness :
    (⟨.num 1, "a", 5⟩ : PendingRequest) ∈
      (engineStep [⟨.num 1, "a", 5⟩] (.send ⟨.num 2, "b", 5⟩)).1 :=
  (pending_table_invariant.2 [⟨.num 1, "a", 5⟩] (.send ⟨.num 2, "b", 5⟩)
    ⟨.num 1, "a", 5⟩ (by simp) (by simp)).mpr (by simp [terminalFor])

theorem processResponses_cons (t : List PendingRequest) (r : JSONRPCResponse)
    (rest : List JSONRPCResponse) :
    processResponses t (r :: rest) =
      ((processResponses (dispatch t (.response r)).1 rest).1,
        (dispatch t (.response r)).2 ++
          (processResponses (dispatch t (.response r)).1 rest).2) := rfl

theorem processResponses_outcomes_sound (t : List PendingRequest)
    (rs : List JSONRPCResponse) :
    ∀ i p, Outcome.fulfilled i p ∈ (processResponses t rs).2 →
      ∃ r ∈ rs, r.id.toRequestId = some i ∧ r.payload = p := by
  induction rs generalizing t with
  | nil =>
    intro i p h
    simp [processResponses] at h
  | cons r rest ih =>
    intro i p h
    rw [processResponses_cons] at h
    rcases List.mem_append.mp h with hl | hr
    · cases hdec : r.id.toRequestId with
      | none =>
        rw [show dispatch t (.response r) = (t, []) from by
          simp [dispatch, hdec]] at hl
        simp at hl
      | some i2 =>
        cases hfind : findPending t i2 with
        | none =>
          rw [show dispatch t (.response r) = (t, []) from by
            simp [dispatch, hdec, hfind]] at hl
          simp at hl
        | some e =>
          rw [show dispatch t (.response r) =
              (removePending t i2, [.fulfilled e.id r.payload]) from by
            simp [dispatch, hdec, hfind]] at hl
          simp only [List.mem_singleton] at hl
          obtain ⟨h1, h2⟩ := Outcome.fulfilled.inj hl
          refine ⟨r, List.mem_cons_self r rest, ?_, h2.symm⟩
          rw [hdec, findPending_some_id t i2 e hfind] at *
          rw [h1]
    · obtain ⟨r2, hr2, hd, hp⟩ := ih (dispatch t (.response r)).1 i p hr
      exact ⟨r2, List.mem_cons_of_mem r hr2, hd, hp⟩

theorem processResponses_delivers (rs : List JSONRPCResponse) :
    ∀ t : List PendingRequest, (t.map PendingRequest.id).Nodup →
      (rs.map (fun r => r.id.toRequestId)).Nodup →
      ∀ e ∈ t, ∀ r ∈ rs, r.id.toRequestId = some e.id →
        Outcome.fulfilled e.id r.payload ∈ (processResponses t rs).2 := by
  induction rs with
  | nil =>
    intro t _ _ e _ r hr
    cases hr
  | cons r0 rest ih =>
    intro t hnd hrs e he r hr hmatch
    rw [processResponses_cons]
    have hhead : r0.id.toRequestId ∉
        rest.map (fun x => x.id.toRequestId) :=
      (List.nodup_cons.mp (by simpa using hrs)).1
    have hresttail : (rest.map (fun x => x.id.toRequestId)).Nodup :=
      (List.nodup_cons.mp (by simpa using hrs)).2
    rcases List.mem_cons.mp hr with rfl | hrmem
    · have hfind : findPending t e.id = some e := findPending_eq_some t e hnd he
      rw [show dispatch t (.response r) =
          (removePending t e.id, [.fulfilled e.id r.payload]) from by
        simp [dispatch, hmatch, hfind]]
      exact List.mem_append.mpr (Or.inl (List.mem_singleton.mpr rfl))
    · have hne : ∀ i0, r0.id.toRequestId = some i0 → i0 ≠ e.id := by
        intro i0 h0 hcontra
        subst hcontra
        apply hhead
        have hmem2 : r.id.toRequestId ∈
            rest.map (fun x => x.id.toRequestId) :=
          List.mem_map_of_mem (fun x => x.id.toRequestId) hrmem
        rw [hmatch] at hmem2
        rw [h0]
        exact hmem2
      cases hdec : r0.id.toRequestId with
      | none =>
        rw [show dispatch t (.response r0) = (t, []) from by
          simp [dispatch, hdec]]
        simp only [List.nil_append]
        exact ih t hnd hresttail e he r hrmem hmatch
      | some i0 =>
        have hne0 : i0 ≠ e.id := hne i0 hdec
        cases hfind : findPending t i0 with
        | none =>
          rw [show dispatch t (.response r0) = (t, []) from by
            simp [dispatch, hdec, hfind]]
          simp only [List.nil_append]
          exact ih t hnd hresttail e he r hrmem hmatch
        | some x =>
          rw [show dispatch t (.response r0) =
              (removePending t i0, [.fulfilled x.id r0.payload]) from by
            simp [dispatch, hdec, hfind]]
          refine List.mem_append.mpr (Or.inr ?_)
          exact ih (removePending t i0) (removePending_nodup t i0 hnd)
            hresttail e (mem_removePending t e i0 he (fun hh => hne0 hh.symm))
            r hrmem hmatch

/-- C1: with pairwise-distinct pending ids and distinct response ids,
processing the responses in any arrival order delivers to each pending
request exactly the payload of the response whose id equals its own id
(delivery), and every delivered outcome for an id carries the payload of
a response bearing that id (never a swapped one). -/
theorem concurrent_correlation (t : List PendingRequest)
    (rs : List JSONRPCResponse)
    (hnd : (t.map PendingRequest.id).Nodup)
    (hrs : (rs.map (fun r => r.id.toRequestId)).Nodup) :
    (∀ e ∈ t, ∀ r ∈ rs, r.id.toRequestId = some e.id →
      Outcome.fulfilled e.id r.payload ∈ (processResponses t rs).2) ∧
    (∀ i p, Outcome.fulfilled i p ∈ (processResponses t rs).2 →
      ∃ r ∈ rs, r.id.toRequestId = some i ∧ r.payload = p) :=
  ⟨processResponses_delivers rs t hnd hrs,
   processResponses_outcomes_sound t rs⟩

/-- C1 witness: requests with ids 1, 2, 3 answered in the order 3, 1, 2
each receive their own result. -/
theorem concurrent_correlation_witness :
    Outcome.fulfilled (.num 1) (.result (Json.num 11)) ∈
      (processResponses
        [⟨.num 1, "m1", 9⟩, ⟨.num 2, "m2", 9⟩, ⟨.num 3, "m3", 9⟩]
        [⟨Json.num 3, .result (Json.num 33)⟩,
         ⟨Json.num 1, .result (Json.num 11)⟩,
         ⟨Json.num 2, .result (Json.num 22)⟩]).2 ∧
    Outcome.fulfilled (.num 2) (.result (Json.num 22)) ∈
      (processResponses
        [⟨.num 1, "m1", 9⟩, ⟨.num 2, "m2", 9⟩, ⟨.num 3, "m3", 9⟩]
        [⟨Json.num 3, .result (Json.num 33)⟩,
         ⟨Json.num 1, .result (Json.num 11)⟩,
         ⟨Json.num 2, .result (Json.num 22)⟩]).2 ∧
    Outcome.fulfilled (.num 3) (.result (Json.num 33)) ∈
      (processResponses
        [⟨.num 1, "m1", 9⟩, ⟨.num 2, "m2", 9⟩, ⟨.num 3, "m3", 9⟩]
        [⟨Json.num 3, .result (Json.num 33)⟩,
         ⟨Json.num 1, .result (Json.num 11)⟩,
         ⟨Json.num 2, .result (Json.num 22)⟩]).2 :=
  have H := concurrent_correlation
    [⟨.num 1, "m1", 9⟩, ⟨.num 2, "m2", 9⟩, ⟨.num 3, "m3", 9⟩]
    [⟨Json.num 3, .result (Json.num 33)⟩,
     ⟨Json.num 1, .result (Json.num 11)⟩,
     ⟨Json.num 2, .result (Json.num 22)⟩]
    (by decide) (by decide)
  ⟨H.1 ⟨.num 1, "m1", 9⟩ (by decide) ⟨Json.num 1, .result (Json.num 11)⟩
      (List.mem_cons_of_mem _ (List.mem_cons_self _ _)) rfl,
   H.1 ⟨.num 2, "m2", 9⟩ (by decide) ⟨Json.num 2, .result (Json.num 22)⟩
      (List.mem_cons_of_mem _
        (List.mem_cons_of_mem _ (List.mem_cons_self _ _))) rfl,
   H.1 ⟨.num 3, "m3", 9⟩ (by decide) ⟨Json.num 3, .result (Json.num 33)⟩
      (List.mem_cons_self _ _) rfl⟩

/-- C7: stop is idempotent — on a channel already closed (pumps
cancelled, pipes released) stop is a no-op that leaves the state
unchanged and, being a total function, does not raise; and stopping
twice in succession equals stopping once. -/
theorem stop_idempotent :
    (∀ c : ProcessChannel, c.isClosed → c.stop = c) ∧
    (∀ c : ProcessChannel, c.stop.stop = c.stop) := by
  constructor
  · rintro ⟨s, p, h⟩ ⟨hs, hp, hh⟩
    simp only at hs hp hh
    simp [ProcessChannel.stop, hs, hp, hh]
  · intro c
    rfl

/-- C7 witness: stopping the concrete closed channel changes nothing. -/
theorem stop_idempotent_witness :
    ProcessChannel.stop ⟨.closed, false, false⟩ = ⟨.closed, false, false⟩ :=
  stop_idempotent.1 ⟨.closed, false, false⟩ ⟨rfl, rfl, rfl⟩

/-- C8 counterexample: passing a non-StdioParameters value where
parameters are expected does not fail at construction time — the
constructor returns a transport normally (storing the bad value, no
process) and the TypeError-class error only appears when the transport
is started, exactly as test_type_error_on_invalid_parameters exercises
it by constructing outside the raises block. -/
theorem construction_accepts_invalid_params :
    StdioTransport.init (.other "not-a-StdioParameters-object") =
      ⟨.other "not-a-StdioParameters-object", none⟩ ∧
    (StdioTransport.init (.other "not-a-StdioParameters-object")).start =
      .error (.typeError "Expected StdioParameters") :=
  ⟨rfl, rfl⟩

/-- C8 (amended): for every configuration object that is not
StdioParameters-shaped, construction stores it without validation, and
the failure is a TypeError-class error raised when the transport is
started (at context entry), before any child process is spawned. -/
theorem start_type_error_before_spawn (d : String) :
    (StdioTransport.init (.other d)).start =
      .error (.typeError "Expected StdioParameters") ∧
    (StdioTransport.init (.other d)).process = none :=
  ⟨rfl, rfl⟩

/-- C9: send_terminal_wait_for_exit defaults to a 300-second timeout
while create, release and kill default to 60 seconds, and each typed
terminal call is exactly one engine invocation — a request for the four
call-response methods and a notification for terminal/output. -/
theorem terminal_timeout_defaults :
    (∀ tid, (send_terminal_wait_for_exit tid).timeoutOf = some 300 ∧
      (send_terminal_wait_for_exit tid).isRequest = true ∧
      (send_terminal_wait_for_exit tid).methodOf = "terminal/wait_for_exit") ∧
    (∀ c a w e, (send_terminal_create c a w e).timeoutOf = some 60 ∧
      (send_terminal_create c a w e).isRequest = true ∧
      (send_terminal_create c a w e).methodOf = "terminal/create") ∧
    (∀ tid, (send_terminal_release tid).timeoutOf = some 60 ∧
      (send_terminal_release tid).isRequest = true ∧
      (send_terminal_release tid).methodOf = "terminal/release") ∧
    (∀ tid, (send_terminal_kill tid).timeoutOf = some 60 ∧
      (send_terminal_kill tid).isRequest = true ∧
      (send_terminal_kill tid).methodOf = "terminal/kill") ∧
    (∀ tid out strm, (send_terminal_output tid out strm).isRequest = false ∧
      (send_terminal_output tid out strm).methodOf = "terminal/output") :=
  ⟨fun _ => ⟨rfl, rfl, rfl⟩, fun _ _ _ _ => ⟨rfl, rfl, rfl⟩,
   fun _ => ⟨rfl, rfl, rfl⟩, fun _ => ⟨rfl, rfl, rfl⟩,
   fun _ _ _ => ⟨rfl, rfl⟩⟩

/-- C10: the params of every send_terminal_create call carry the command
key, and each of args, cwd and env is present exactly when the
corresponding argument was supplied and truthy — an empty list, empty
string or empty mapping is omitted. -/
theorem terminal_create_param_shape (c : String) (a : Option (List String))
    (w : Option String) (e : Option (List (String × String))) (t : Nat) :
    jsonLookup (send_terminal_create c a w e t).paramsOf "command" =
      some (.str c) ∧
    (hasKey (send_terminal_create c a w e t).paramsOf "args" = true ↔
      ∃ l, a = some l ∧ l ≠ []) ∧
    (hasKey (send_terminal_create c a w e t).paramsOf "cwd" = true ↔
      ∃ s, w = some s ∧ s ≠ "") ∧
    (hasKey (send_terminal_create c a w e t).paramsOf "env" = true ↔
      ∃ m, e = some m ∧ m ≠ []) := by
  have hargs : truthyList a = true ↔ ∃ l, a = some l ∧ l ≠ [] := by
    cases a with
    | none => simp [truthyList]
    | some l => cases l <;> simp [truthyList]
  have hcwd : truthyStr w = true ↔ ∃ s, w = some s ∧ s ≠ "" := by
    cases w with
    | none => simp [truthyStr]
    | some s =>
      have hi := String.isEmpty_iff (s := s)
      cases h : s.isEmpty <;> simp_all [truthyStr]
  have henv : truthyDict e = true ↔ ∃ m, e = some m ∧ m ≠ [] := by
    cases e with
    | none => simp [truthyDict]
    | some m => cases m <;> simp [truthyDict]
  refine ⟨?_, ?_, ?_, ?_⟩
  · simp [send_terminal_create, CallAction.paramsOf, jsonLookup]
  · rw [← hargs]
    simp only [send_terminal_create, CallAction.paramsOf, hasKey, jsonLookup]
    split_ifs with h1 h2 h3 <;> simp_all [List.find?_append, jsonLookup]
  · rw [← hcwd]
    simp only [send_terminal_create, CallAction.paramsOf, hasKey, jsonLookup]
    split_ifs with h1 h2 h3 <;> simp_all [List.find?_append, jsonLookup]
  · rw [← henv]
    simp only [send_terminal_create, CallAction.paramsOf, hasKey, jsonLookup]
    split_ifs with h1 h2 h3 <;> simp_all [List.find?_append, jsonLookup]

/-- C2: parse_message is total on every input line (a Lean function of
the line, returning a typed result, never an exception): a decoded
object with method and no id is a Notification, with method and id a
Request, with id, no method and exactly one of result / error a
Response, and every other case — both or neither of result / error, a
non-object document, or text that is not valid JSON — is a ParseFailure
carrying the offending text and a reason. -/
theorem parse_message_classification (line : String)
    (fields : List (String × Json)) :
    (decodeJson line = none →
      parse_message line = .failure line "not valid JSON") ∧
    (decodeJson line = some (.obj fields) →
      (∀ m, jsonLookup fields "method" = some m →
        jsonLookup fields "id" = none →
        parse_message line =
          .msg (.notification ⟨m, jsonLookup fields "params"⟩)) ∧
      (∀ m i, jsonLookup fields "method" = some m →
        jsonLookup fields "id" = some i →
        parse_message line =
          .msg (.request ⟨i, m, jsonLookup fields "params"⟩)) ∧
      (∀ i r, jsonLookup fields "method" = none →
        jsonLookup fields "id" = some i →
        jsonLookup fields "result" = some r →
        jsonLookup fields "error" = none →
        parse_message line = .msg (.response ⟨i, .result r⟩)) ∧
      (∀ i e, jsonLookup fields "method" = none →
        jsonLookup fields "id" = some i →
        jsonLookup fields "result" = none →
        jsonLookup fields "error" = some e →
        parse_message line = .msg (.response ⟨i, .error e⟩)) ∧
      (jsonLookup fields "method" = none →
        (jsonLookup fields "result").isSome =
          (jsonLookup fields "error").isSome →
        ∃ reason, parse_message line = .failure line reason)) ∧
    (∀ j, decodeJson line = some j → (∀ fs, j ≠ .obj fs) →
      ∃ reason, parse_message line = .failure line reason) := by
  refine ⟨?_, ?_, ?_⟩
  · intro h
    simp [parse_message, h]
  · intro h
    refine ⟨?_, ?_, ?_, ?_, ?_⟩
    · intro m hm hi
      simp [parse_message, h, classify, hm, hi]
    · intro m i hm hi
      simp [parse_message, h, classify, hm, hi]
    · intro i r hm hi hr he
      simp [parse_message, h, classify, hm, hi, hr, he]
    · intro i e hm hi hr he
      simp [parse_message, h, classify, hm, hi, hr, he]
    · intro hm hre
      rcases hi : jsonLookup fields "id" with _ | i <;>
        rcases hr : jsonLookup fields "result" with _ | r <;>
        rcases he : jsonLookup fields "error" with _ | e <;>
        simp_all [parse_message, h, classify]
  · intro j hj hne
    cases j with
    | obj fs => exact absurd rfl (hne fs)
    | null =>
      exact ⟨"top-level JSON value is not an object",
        by simp [parse_message, hj, classify]⟩
    | bool b =>
      exact ⟨"top-level JSON value is not an object",
        by simp [parse_message, hj, classify]⟩
    | num n =>
      exact ⟨"top-level JSON value is not an object",
        by simp [parse_message, hj, classify]⟩
    | str s =>
      exact ⟨"top-level JSON value is not an object",
        by simp [parse_message, hj, classify]⟩
    | arr xs =>
      exact ⟨"top-level JSON value is not an object",
        by simp [parse_message, hj, classify]⟩

/-- C2 witness: concrete lines hitting the notification branch and the
not-valid-JSON branch. -/
theorem parse_message_classification_witness :
    parse_message "\x7b\"method\":\"ping\"\x7d" =
      .msg (.notification ⟨.str "ping", none⟩) ∧
    parse_message "not json" = .failure "not json" "not valid JSON" :=
  ⟨(parse_message_classification "\x7b\"method\":\"ping\"\x7d"
      [("method", .str "ping")]).2.1 (by rfl) |>.1 (.str "ping") rfl rfl,
   (parse_message_classification "not json" []).1 rfl⟩

end ChukAcp
